import Mathlib

/-!
# DAL: channel identifiers, hyperslab geometry, groups and I/O flags

A verification development for parts of the Data Access Library (DAL):

* `DAL.channelID` embeds `TBB_StationGroup::channelID` of
  `implement/TBB_StationGroup.h`, which prints three `unsigned int` ids with
  `sprintf (uid, "%03d%03d%03d", ...)` into `char uid[10]`.
* `DAL.dalGroup` with `close`, `destroy`, `setName`, `getName`, `createGroup`
  and `getMemberNames` embeds `implement/dalGroup.cpp`; the HDF5 calls it makes
  are kept as small models of the library.
* `DAL.verifyFlags`, `DAL.haveFlag`, `DAL.addFlag`, `DAL.removeFlag`,
  `DAL.flagsMap` and `DAL.flagDescriptions` embed `IO_Mode` of
  `dal/core/IO_Mode.cc` over the values of the flag enumeration, whose header
  is not at hand.
* `DAL.addAttribute`, `DAL.removeAttribute` and `DAL.attributeAt` embed
  `CommonInterface` of `implement/data_common/CommonInterface.cc` over a
  `std::set` of names kept as its ordered list.
* `DAL.decode`, `DAL.plan`, `DAL.write`, `DAL.read`, `DAL.nofDatapoints`,
  `DAL.selectCells`, `DAL.memoryBackend` and `DAL.aggregateAttribute` are
  modelled from the specification: the source files at hand hold no decoder
  for channel keys, no geometry calculator, no storage backend and no
  attribute aggregation.
-/

set_option autoImplicit false

namespace DAL

/-! ## Channel addressing: `TBB_StationGroup::channelID` -/

/-- Number of values of an `unsigned int` (32 bits wide). -/
def UINT_RANGE : Nat := 2 ^ 32

/-- Number of bytes of the buffer `char uid[10]` in `channelID`. -/
def UID_SIZE : Nat := 10

/-- The value which the conversion `%d` reads from an argument that was
handed over as `unsigned int`: the same 32 bits taken as a signed `int`. -/
def asSigned (u : Nat) : Int :=
  if u % UINT_RANGE < UINT_RANGE / 2 then ((u % UINT_RANGE : Nat) : Int)
  else ((u % UINT_RANGE : Nat) : Int) - (UINT_RANGE : Int)

/-- Pad a run of digits on the left with the character `0` up to `width`
characters; a run that is already as long or longer is left as it is. -/
def zeroPad (width : Nat) (digits : List Char) : List Char :=
  List.replicate (width - digits.length) '0' ++ digits

/-- The characters written by the conversion `%03d` for the value `n`: a
minimum field width of three, filled with zeros after the sign. -/
def format03d (n : Int) : List Char :=
  if n < 0 then '-' :: zeroPad 2 (Nat.toDigits 10 n.natAbs)
  else zeroPad 3 (Nat.toDigits 10 n.toNat)

/-- The characters which `sprintf (uid, "%03d%03d%03d", station_id, rsp_id,
rcu_id)` produces, the terminating NUL not included. -/
def sprintfUid (station_id rsp_id rcu_id : Nat) : List Char :=
  format03d (asSigned station_id) ++ format03d (asSigned rsp_id)
    ++ format03d (asSigned rcu_id)

/-- Embedding of `TBB_StationGroup::channelID (station_id, rsp_id, rcu_id)`.
The text and its terminating NUL are written into `uid`, which holds
`UID_SIZE` bytes, and the result is the string read back from `uid`.  When the
text does not fit, `sprintf` writes past the end of `uid` and the C++ program
has no defined result: the embedding yields `none` there, which stands for no
value of the function in particular (a build may hand back the text that was
printed).  Every statement about `channelID` below is about ids whose text
fits. -/
def channelID (station_id rsp_id rcu_id : Nat) : Option String :=
  let uid := sprintfUid station_id rsp_id rcu_id
  if uid.length + 1 ≤ UID_SIZE then some (String.mk uid) else none

/-- The decimal digit character of a value below ten. -/
def digitOf (d : Nat) : Char := Nat.digitChar d

/-- The value of a decimal digit character. -/
def digitValue (c : Char) : Nat := c.toNat - 48

/-- The number written by a run of decimal digits, most significant first. -/
def decimalValue (cs : List Char) : Nat :=
  cs.foldl (fun acc c => 10 * acc + digitValue c) 0

/-- An id zero-padded to three decimal digits. -/
def pad3 (n : Nat) : List Char :=
  [digitOf (n / 100), digitOf (n / 10 % 10), digitOf (n % 10)]

/-- The three characters of the field of an id that is at most 999 or one of
the 99 largest values of `unsigned int`: the id zero-padded, or, where `%d`
reads the id as a negative number from -99 to -1, a minus sign and two
digits. -/
def wrappedPad3 (u : Nat) : List Char :=
  if u ≤ 999 then pad3 u
  else ['-', digitOf ((UINT_RANGE - u) / 10), digitOf ((UINT_RANGE - u) % 10)]

/-! ## Channel addressing: decoding -/

deriving instance DecidableEq for Except

/-- Failure of `decode`. -/
inductive DecodingError where
  | MalformedKey
  deriving DecidableEq, Repr

/-- Modelled from the spec: the decoder of channel keys, `decode(key)`, which
is not among the source files.  It fails with `MalformedKey` if the length of
the key is not 9 or the key contains a character that is not a decimal digit;
otherwise the three groups of three digits are the station id, the sub-unit
id and the receiver id. -/
def decode (key : String) : Except DecodingError (Nat × Nat × Nat) :=
  let cs := key.data
  if cs.length ≠ 9 ∨ ¬ (cs.all Char.isDigit = true) then
    Except.error DecodingError.MalformedKey
  else
    Except.ok (decimalValue (cs.take 3),
               decimalValue ((cs.drop 3).take 3),
               decimalValue ((cs.drop 6).take 3))

/-! ## Geometry of region requests -/

/-- Failures of `plan`. -/
inductive GeometryError where
  | RankMismatch
  | EmptyRegion
  | ExceedsMaximum (axis requested max : Nat)
  deriving DecidableEq, Repr

/-- Region descriptor: offset, block shape, stride and repeat count per
axis. -/
structure Region where
  offset : List Nat
  block : List Nat
  stride : List Nat
  count : List Nat
  deriving DecidableEq, Repr

/-- Result of a successful `plan`: the descriptor of the region and, when the
dataset has to grow, the shape to extend it to. -/
structure Plan where
  descriptor : Region
  extendTo : Option (List Nat)
  deriving DecidableEq, Repr

/-- The default of `requestedStride` and `requestedCount`: one on every
axis. -/
def ones (rank : Nat) : List Nat := List.replicate rank 1

/-- Modelled from the spec: `requiredShape[i] = requestedStart[i] +
requestedStride[i]*(requestedCount[i]-1) + requestedBlock[i]` of the geometry
calculator, which is not among the source files. -/
def requiredAt (start block stride count : List Nat) (i : Nat) : Nat :=
  start.getD i 0 + stride.getD i 0 * (count.getD i 0 - 1) + block.getD i 0

/-- Modelled from the spec: the required shape of a request on a dataset of
the given rank (see `requiredAt`). -/
def requiredShape (rank : Nat) (start block stride count : List Nat) : List Nat :=
  (List.range rank).map (requiredAt start block stride count)

/-- Modelled from the spec: the test "would exceed a bounded maximum" on one
axis, with the bound that is exceeded; `none` in `maxShape` is the sentinel of
an unbounded axis. -/
def exceedsAt (maxShape : List (Option Nat)) (required : List Nat) (i : Nat) :
    Option (Nat × Nat) :=
  match maxShape.getD i none with
  | none => none
  | some m => if m < required.getD i 0 then some (i, m) else none

/-- Modelled from the spec: `plan(currentShape, maxShape, chunkShape,
requestedStart, requestedBlock, requestedStride=1s, requestedCount=1s)` of the
geometry calculator (section 4.1), which is not among the source files.  A
stride or count that is left out (`none`) is one on every axis.  The checks
run in the order of the spec: rank mismatch, empty region, no growth needed,
growth within the maximum (to the elementwise maximum of the current and the
required shape), and else `ExceedsMaximum` for the first axis whose bound is
exceeded. -/
def plan (currentShape : List Nat) (maxShape : List (Option Nat))
    (chunkShape requestedStart requestedBlock : List Nat)
    (requestedStride requestedCount : Option (List Nat)) :
    Except GeometryError Plan :=
  let rank := currentShape.length
  let stride := requestedStride.getD (ones rank)
  let count := requestedCount.getD (ones rank)
  if maxShape.length ≠ rank ∨ chunkShape.length ≠ rank
      ∨ requestedStart.length ≠ rank ∨ requestedBlock.length ≠ rank
      ∨ stride.length ≠ rank ∨ count.length ≠ rank then
    Except.error GeometryError.RankMismatch
  else if (requestedBlock.any fun b => b == 0) || (count.any fun c => c == 0) then
    Except.error GeometryError.EmptyRegion
  else
    let required := requiredShape rank requestedStart requestedBlock stride count
    let descriptor := Region.mk requestedStart requestedBlock stride count
    if (List.range rank).all
        (fun i => decide (required.getD i 0 ≤ currentShape.getD i 0)) then
      Except.ok (Plan.mk descriptor none)
    else
      match (List.range rank).findSome? (exceedsAt maxShape required) with
      | none => Except.ok (Plan.mk descriptor (some (List.zipWith max currentShape required)))
      | some (axis, m) =>
        Except.error (GeometryError.ExceedsMaximum axis (required.getD axis 0) m)

/-- The ranks of all inputs of `plan` agree with the rank of the dataset. -/
def RanksMatch (currentShape : List Nat) (maxShape : List (Option Nat))
    (chunkShape requestedStart requestedBlock : List Nat)
    (requestedStride requestedCount : Option (List Nat)) : Prop :=
  maxShape.length = currentShape.length
    ∧ chunkShape.length = currentShape.length
    ∧ requestedStart.length = currentShape.length
    ∧ requestedBlock.length = currentShape.length
    ∧ (requestedStride.getD (ones currentShape.length)).length = currentShape.length
    ∧ (requestedCount.getD (ones currentShape.length)).length = currentShape.length

instance (currentShape : List Nat) (maxShape : List (Option Nat))
    (chunkShape requestedStart requestedBlock : List Nat)
    (requestedStride requestedCount : Option (List Nat)) :
    Decidable (RanksMatch currentShape maxShape chunkShape requestedStart
      requestedBlock requestedStride requestedCount) := by
  unfold RanksMatch
  infer_instance

/-- A well-formed request on a dataset: all ranks are equal and every block
size and every count (the default of ones included) is at least one. -/
def WellFormed (currentShape : List Nat) (maxShape : List (Option Nat))
    (chunkShape requestedStart requestedBlock : List Nat)
    (requestedStride requestedCount : Option (List Nat)) : Prop :=
  RanksMatch currentShape maxShape chunkShape requestedStart requestedBlock
      requestedStride requestedCount
    ∧ (∀ b ∈ requestedBlock, 1 ≤ b)
    ∧ (∀ c ∈ requestedCount.getD (ones currentShape.length), 1 ≤ c)

instance (currentShape : List Nat) (maxShape : List (Option Nat))
    (chunkShape requestedStart requestedBlock : List Nat)
    (requestedStride requestedCount : Option (List Nat)) :
    Decidable (WellFormed currentShape maxShape chunkShape requestedStart
      requestedBlock requestedStride requestedCount) := by
  unfold WellFormed
  infer_instance

/-- The invariant of a dataset extent (section 3 of the spec): on every axis
with a bounded maximum the current size is at most the maximum. -/
def ExtentInvariant (currentShape : List Nat) (maxShape : List (Option Nat)) : Prop :=
  ∀ i, i < currentShape.length →
    ∀ m, maxShape.getD i none = some m → currentShape.getD i 0 ≤ m

instance (currentShape : List Nat) (maxShape : List (Option Nat)) :
    Decidable (ExtentInvariant currentShape maxShape) := by
  unfold ExtentInvariant
  exact decidable_of_iff
    (∀ i ∈ List.range currentShape.length,
      ∀ m ∈ maxShape.getD i none, currentShape.getD i 0 ≤ m)
    (by simp [List.mem_range, Option.mem_def])

/-! ## Extensible arrays -/

/-- Modelled from the spec: the operations of the storage backend (section 6)
that a write or read goes through.  `Handle` stands for the state of the
dataset in the backend; an operation that fails yields `none`. -/
structure Backend (Handle Elem : Type) where
  backendExtend : Handle → List Nat → Option Handle
  backendWriteRegion : Handle → Region → List Elem → Option Handle
  backendReadRegion : Handle → Region → Option (List Elem)

/-- Modelled from the spec: an extensible array with its extent (section 3):
the current shape, the maximum shape and the chunk shape. -/
structure ExtensibleArray (Handle : Type) where
  handle : Handle
  currentShape : List Nat
  maxShape : List (Option Nat)
  chunkShape : List Nat

/-- Failures of `write`: a geometry error of `plan` or a failure of the
backend. -/
inductive WriteError where
  | Geometry (e : GeometryError)
  | BackendFailure
  deriving DecidableEq, Repr

/-- Modelled from the spec: `write(buffer, start, block, stride=1s,
count=1s)` of an extensible array (section 4.2), which is not among the source
files.  It calls `plan`; on a geometry error it fails and touches nothing;
when `extendTo` is present it first extends through the backend and then
transfers the data; an extension is not rolled back when the transfer fails.
The result is the outcome together with the array after the call. -/
def write {Handle Elem : Type} (B : Backend Handle Elem)
    (arr : ExtensibleArray Handle) (buffer : List Elem)
    (start block : List Nat) (stride count : Option (List Nat)) :
    Except WriteError Unit × ExtensibleArray Handle :=
  match plan arr.currentShape arr.maxShape arr.chunkShape start block stride count with
  | Except.error e => (Except.error (WriteError.Geometry e), arr)
  | Except.ok p =>
    match p.extendTo with
    | none =>
      match B.backendWriteRegion arr.handle p.descriptor buffer with
      | none => (Except.error WriteError.BackendFailure, arr)
      | some h =>
        (Except.ok (), ExtensibleArray.mk h arr.currentShape arr.maxShape arr.chunkShape)
    | some newShape =>
      match B.backendExtend arr.handle newShape with
      | none => (Except.error WriteError.BackendFailure, arr)
      | some h1 =>
        match B.backendWriteRegion h1 p.descriptor buffer with
        | none =>
          (Except.error WriteError.BackendFailure,
            ExtensibleArray.mk h1 newShape arr.maxShape arr.chunkShape)
        | some h2 =>
          (Except.ok (), ExtensibleArray.mk h2 newShape arr.maxShape arr.chunkShape)

/-- A backend on which every operation succeeds and which stores nothing. -/
def nullBackend : Backend Unit Nat where
  backendExtend := fun _ _ => some ()
  backendWriteRegion := fun _ _ _ => some ()
  backendReadRegion := fun _ _ => some []

/-- A call of the backend that changes the stored dataset. -/
inductive BackendCall where
  | extend (newShape : List Nat)
  | writeRegion (descriptor : Region)
  deriving DecidableEq, Repr

/-- A backend that behaves as `B` and keeps, next to the state of `B`, the
list of the extend and write calls that were issued, oldest first. -/
def recordingBackend {Handle Elem : Type} (B : Backend Handle Elem) :
    Backend (Handle × List BackendCall) Elem where
  backendExtend := fun h newShape =>
    (B.backendExtend h.1 newShape).map
      (fun h1 => (h1, h.2 ++ [BackendCall.extend newShape]))
  backendWriteRegion := fun h d buffer =>
    (B.backendWriteRegion h.1 d buffer).map
      (fun h1 => (h1, h.2 ++ [BackendCall.writeRegion d]))
  backendReadRegion := fun h d => B.backendReadRegion h.1 d

/-- Failures of `read`: a geometry error of `plan`, a region outside the
current shape, or a failure of the backend. -/
inductive ReadError where
  | Geometry (e : GeometryError)
  | OutOfRange
  | BackendFailure
  deriving DecidableEq, Repr

/-- Modelled from the spec: `read(outBuffer, start, block, stride=1s,
count=1s)` of an extensible array (section 4.2), which is not among the source
files.  The geometry is validated by `plan` as for `write`; a read never
extends: it fails with `OutOfRange` if `plan` reports `ExceedsMaximum` or the
region exceeds the current shape (the plan would need growth).  The result is
the outcome, with the data read, together with the array after the call. -/
def read {Handle Elem : Type} (B : Backend Handle Elem)
    (arr : ExtensibleArray Handle)
    (start block : List Nat) (stride count : Option (List Nat)) :
    Except ReadError (List Elem) × ExtensibleArray Handle :=
  match plan arr.currentShape arr.maxShape arr.chunkShape start block stride count with
  | Except.error (GeometryError.ExceedsMaximum _ _ _) =>
    (Except.error ReadError.OutOfRange, arr)
  | Except.error e => (Except.error (ReadError.Geometry e), arr)
  | Except.ok p =>
    match p.extendTo with
    | some _ => (Except.error ReadError.OutOfRange, arr)
    | none =>
      match B.backendReadRegion arr.handle p.descriptor with
      | none => (Except.error ReadError.BackendFailure, arr)
      | some data => (Except.ok data, arr)

/-- One operation on an extensible array: a write or a read with its
arguments. -/
inductive ArrayOp (Elem : Type) where
  | write (buffer : List Elem) (start block : List Nat)
      (stride count : Option (List Nat))
  | read (start block : List Nat) (stride count : Option (List Nat))

/-- The array after one operation, whether the operation succeeds or fails. -/
def applyOp {Handle Elem : Type} (B : Backend Handle Elem)
    (arr : ExtensibleArray Handle) : ArrayOp Elem → ExtensibleArray Handle
  | ArrayOp.write buffer start block stride count =>
    (write B arr buffer start block stride count).2
  | ArrayOp.read start block stride count =>
    (read B arr start block stride count).2

/-- The array after a sequence of operations, applied from left to right. -/
def runOps {Handle Elem : Type} (B : Backend Handle Elem)
    (arr : ExtensibleArray Handle) (ops : List (ArrayOp Elem)) :
    ExtensibleArray Handle :=
  ops.foldl (applyOp B) arr

/-- Modelled from the spec: the number of elements that a transfer of the
region moves, `product(block)*product(count)` (section 4.2). -/
def transferCount (d : Region) : Nat :=
  d.block.prod * d.count.prod

/-- Modelled from the spec: `HDF5Hyperslab::nofDatapoints (count, block)`,
which is called by the test of the Stokes dataset but is not among the source
files: the number of elements `product(block)*product(count)`, where a count
that is left empty stands for one on every axis. -/
def nofDatapoints (count block : List Nat) : Nat :=
  if count.isEmpty then block.prod else block.prod * count.prod

/-- Modelled from the spec: the indices which a region selects on one axis
(the hyperslab of the glossary): `count` blocks of `block` consecutive
indices each, the blocks `stride` apart and the first one at `offset`; the
block is iterated fastest, then the count. -/
def axisIndices (offset block stride count : Nat) : List Nat :=
  (List.range count).flatMap fun c =>
    (List.range block).map fun b => offset + stride * c + b

/-- Modelled from the spec: the cells which a region with the given offset,
block, stride and count per axis selects, in row-major order (the last axis
runs fastest).  A cell is the list of its indices, one per axis; a cell that
overlapping blocks select twice is listed twice. -/
def selectCells : List Nat → List Nat → List Nat → List Nat → List (List Nat)
  | o :: os, b :: bs, s :: ss, c :: cs =>
    (axisIndices o b s c).flatMap fun i =>
      (selectCells os bs ss cs).map fun cell => i :: cell
  | _, _, _, _ => [[]]

/-- Modelled from the spec: the cells of a region descriptor, in the order of
the transfer (see `selectCells`). -/
def Region.cells (d : Region) : List (List Nat) :=
  selectCells d.offset d.block d.stride d.count

/-- Modelled from the spec: a backend (section 6) that keeps the dataset in
memory, as the list of the cells written so far with their values, oldest
first.  `backendWriteRegion` moves one element of the buffer into each cell of
the region, in order, and fails when the buffer does not hold exactly one
element per cell (the contract of `write` in section 4.2); `backendExtend`
changes no cell; `backendReadRegion` gives for every cell of the region the
value written last, and the fill value for a cell never written. -/
def memoryBackend {Elem : Type} (fill : Elem) :
    Backend (List (List Nat × Elem)) Elem where
  backendExtend := fun h _ => some h
  backendWriteRegion := fun h d buffer =>
    if buffer.length = d.cells.length then some (h ++ List.zip d.cells buffer)
    else none
  backendReadRegion := fun h d =>
    some (d.cells.map fun cell =>
      ((h.reverse.find? fun e => e.1 == cell).map Prod.snd).getD fill)

/-! ## Groups: `dalGroup` -/

/-- The two results `DAL::SUCCESS` and `DAL::FAIL` of the library; their
declaration is in a header that is not among the source files, so they are
kept as names. -/
inductive Status where
  | SUCCESS
  | FAIL
  deriving DecidableEq, Repr

/-- The data members of a `dalGroup`, as the default constructor lists them.
Pointers are addresses with 0 for `NULL`; `hid_t` and `herr_t` are
integers. -/
structure dalGroup where
  file : Nat
  groupname : String
  groupname_full : String
  group : Nat
  filter : Nat
  file_id : Int
  group_id : Int
  status : Int
  deriving DecidableEq, Repr

/-- The HDF5 library as far as `H5Gclose` is concerned: `answer n id` is the
result of call number `n` when it closes `id` (negative for a failure), and
`calls` lists the calls made so far with their results, oldest first. -/
structure H5CloseLog where
  answer : Nat → Int → Int
  calls : List (Int × Int)

/-- One call `H5Gclose (id)`: the result and the log after the call. -/
def H5Gclose (w : H5CloseLog) (id : Int) : Int × H5CloseLog :=
  (w.answer w.calls.length id,
    H5CloseLog.mk w.answer (w.calls ++ [(id, w.answer w.calls.length id)]))

/-- Embedding of `dalGroup::close ()`: when `group_id` is not 0 the handle is
closed through `H5Gclose`; a failure returns `FAIL` and keeps `group_id`, a
success resets `group_id` to 0.  The result is `SUCCESS` otherwise. -/
def dalGroup.close (g : dalGroup) (w : H5CloseLog) : Status × dalGroup × H5CloseLog :=
  if 0 ≠ g.group_id then
    if (H5Gclose w g.group_id).1 < 0 then
      (Status.FAIL, g, (H5Gclose w g.group_id).2)
    else
      (Status.SUCCESS, { g with group_id := 0 }, (H5Gclose w g.group_id).2)
  else
    (Status.SUCCESS, g, w)

/-- Embedding of the destructor `dalGroup::~dalGroup ()`: when `group_id` is
not 0 the handle is closed through `H5Gclose` (a failure is only reported) and
`group_id` is reset to 0. -/
def dalGroup.destroy (g : dalGroup) (w : H5CloseLog) : dalGroup × H5CloseLog :=
  if 0 ≠ g.group_id then
    ({ g with group_id := 0 }, (H5Gclose w g.group_id).2)
  else
    (g, w)

/-- The group and the log after `n` calls of `close ()` in a row. -/
def closeRepeatedly : Nat → dalGroup → H5CloseLog → dalGroup × H5CloseLog
  | 0, g, w => (g, w)
  | n + 1, g, w => closeRepeatedly n (g.close w).2.1 (g.close w).2.2

/-- The log after `n` calls of `close ()` followed by the destruction of the
group. -/
def closeThenDestroy (n : Nat) (g : dalGroup) (w : H5CloseLog) : H5CloseLog :=
  ((closeRepeatedly n g w).1.destroy (closeRepeatedly n g w).2).2

/-- The number of successful calls in a list of `H5Gclose` calls. -/
def successfulCloses (calls : List (Int × Int)) : Nat :=
  (calls.filter (fun c => decide (0 ≤ c.2))).length

/-- Embedding of `dalGroup::setName (gname)`: a name that is not empty is
stored and `SUCCESS` returned; for the empty name an error is reported and
`FAIL` returned. -/
def dalGroup.setName (g : dalGroup) (gname : String) : Status × dalGroup :=
  if gname.length > 0 then
    (Status.SUCCESS, { g with groupname := gname })
  else
    (Status.FAIL, g)

/-- Embedding of `dalGroup::getName ()`. -/
def dalGroup.getName (g : dalGroup) : String := g.groupname

/-! ## Groups: creating subgroups and listing members -/

/-- The object kinds of the HDF5 type `H5G_obj_t`. -/
inductive H5G_obj_t where
  | H5G_UNKNOWN
  | H5G_GROUP
  | H5G_DATASET
  | H5G_TYPE
  | H5G_LINK
  deriving DecidableEq, Repr

/-- The part of an HDF5 file that group creation touches: the children of
every location, as name and kind in the order of enumeration, and the next
identifier that is free. -/
structure H5File where
  children : Int → List (String × H5G_obj_t)
  nextId : Int

/-- Modelled from the spec: group creation of the storage backend
(`backendCreateGroup`, in the code the HDF5 call `H5Gcreate`), which is outside
the source files.  A name that is in use under the location is refused with a
negative result and nothing changes, in keeping with the invariant of
section 3 that no two children of a parent share a name; otherwise the group
becomes the last child of the location and its new identifier is returned. -/
def H5Gcreate (f : H5File) (loc_id : Int) (name : String) : Int × H5File :=
  if (f.children loc_id).any (fun child => child.1 == name) then
    (-1, f)
  else
    (f.nextId,
      H5File.mk
        (fun loc => if loc = loc_id then
            f.children loc_id ++ [(name, H5G_obj_t.H5G_GROUP)]
          else f.children loc)
        (f.nextId + 1))

/-- Embedding of the constructor `dalGroup::dalGroup (hid_t obj_id, const char
* gname)`.  Its first statement `dalGroup();` builds and drops a temporary and
sets nothing in the new object, so the members keep what they hold before the
body runs: empty strings, and for the other members the indeterminate values
`indet`.  Then `group_id` receives the result of `H5Gcreate`; a negative
result is only reported on the error stream. -/
def dalGroup.subgroup (indet : dalGroup) (f : H5File) (obj_id : Int) (gname : String) :
    dalGroup × H5File :=
  ({ indet with groupname := "", groupname_full := "",
                group_id := (H5Gcreate f obj_id gname).1 },
    (H5Gcreate f obj_id gname).2)

/-- Embedding of `dalGroup::createGroup (gname)`: the pointer `lg`, which
starts as `NULL` (`none`), receives a new `dalGroup` built below the handle
`group_id` of this group and is returned. -/
def dalGroup.createGroup (g : dalGroup) (indet : dalGroup) (f : H5File)
    (gname : String) : Option dalGroup × H5File :=
  (some (dalGroup.subgroup indet f g.group_id gname).1,
    (dalGroup.subgroup indet f g.group_id gname).2)

/-- One member of a group as `H5Giterate` hands it to the operator: its name,
the value that `H5Gget_objinfo` returns for it, and the kind that the call
leaves in `statbuf.type`. -/
structure H5Member where
  name : String
  objinfo : Int
  type : H5G_obj_t
  deriving DecidableEq, Repr

/-- Embedding of the operator `dalGroup_file_info (loc_id, name, opdata)`:
when `H5Gget_objinfo` returns a value above 0 the operator reports an error
and returns 1; otherwise the name of a dataset is appended to the list behind
`opdata`, the name of a group, a named type or anything else is not, and 0 is
returned. -/
def dalGroup_file_info (m : H5Member) (opdata : List String) : Int × List String :=
  if m.objinfo > 0 then
    (1, opdata)
  else
    match m.type with
    | H5G_obj_t.H5G_DATASET => (0, opdata ++ [m.name])
    | H5G_obj_t.H5G_GROUP => (0, opdata)
    | H5G_obj_t.H5G_TYPE => (0, opdata)
    | _ => (0, opdata)

/-- The HDF5 call `H5Giterate` on the members of a group, in the order of
the backend, with an index pointer of `NULL`: the operator is called on one
member after the other until it returns a value other than 0, which is then
the result; the result is 0 when all members were visited. -/
def H5Giterate (op : H5Member → List String → Int × List String) :
    List H5Member → List String → Int × List String
  | [], opdata => (0, opdata)
  | m :: rest, opdata =>
    if (op m opdata).1 ≠ 0 then op m opdata
    else H5Giterate op rest (op m opdata).2

/-- Embedding of `dalGroup::getMemberNames ()`: `H5Giterate` runs
`dalGroup_file_info` over the group `groupname` below `file_id`, which the
backend resolves through `lookup`; a group that is not found is not iterated
and the list stays empty. -/
def dalGroup.getMemberNames (g : dalGroup)
    (lookup : Int → String → Option (List H5Member)) : List String :=
  match lookup g.file_id g.groupname with
  | none => []
  | some members => (H5Giterate dalGroup_file_info members []).2

/-- An example file: the group with handle 7 has the subgroup "a" as its only
child. -/
def exampleFile : H5File :=
  H5File.mk (fun loc => if loc = 7 then [("a", H5G_obj_t.H5G_GROUP)] else []) 8

/-- An example group with handle 7. -/
def exampleGroup : dalGroup := dalGroup.mk 0 "p" "/p" 0 0 1 7 0

/-- The names of the members that are datasets, in the order of the
members. -/
def datasetNames (members : List H5Member) : List String :=
  (members.filter (fun m => m.type == H5G_obj_t.H5G_DATASET)).map H5Member.name

/-- An example enumeration of a group: the dataset "a", the subgroup "g" and
the dataset "b". -/
def exampleMembers : List H5Member :=
  [H5Member.mk "a" 0 H5G_obj_t.H5G_DATASET, H5Member.mk "g" 0 H5G_obj_t.H5G_GROUP,
   H5Member.mk "b" 0 H5G_obj_t.H5G_DATASET]

/-! ## Station groups: aggregated attributes -/

/-- The values of the enumeration `IO_Mode::Flags`.  Its declaration is in
`IO_Mode.h`, which is not among the source files, so the values are taken as
they come; `flagsMap` names the eight flags. -/
structure FlagValues where
  Create : Nat
  CreateNew : Nat
  Open : Nat
  OpenOrCreate : Nat
  Truncate : Nat
  ReadOnly : Nat
  WriteOnly : Nat
  ReadWrite : Nat
  deriving DecidableEq, Repr

/-- Number of values of an `int` (32 bits wide); a flag word is kept as its
bit pattern, a number below `INT_RANGE`. -/
def INT_RANGE : Nat := 2 ^ 32

/-- The operator `~` on the bit pattern of an `int`. -/
def bitNot (x : Nat) : Nat := (INT_RANGE - 1) ^^^ (x % INT_RANGE)

/-- The test `(flags & flag) == flag` of the code: all bits of `flag` are set
in `flags`. -/
def containsFlag (flags flag : Nat) : Bool := (flags &&& flag) == flag

/-- Embedding of `IO_Mode::verifyFlags (int &flags, bool const
&correctFlags)`.  The result is the returned status together with the value
of `flags` after the call.  Inside the test for `ReadOnly` the two checks run
one after the other, the second on `flags` as the first has left it. -/
def verifyFlags (F : FlagValues) (flags : Nat) (correctFlags : Bool) : Bool × Nat :=
  if containsFlag flags F.ReadOnly then
    let afterWriteOnly : Bool × Nat :=
      if containsFlag flags F.WriteOnly then
        (false, if correctFlags then flags &&& bitNot F.WriteOnly else flags)
      else (true, flags)
    if containsFlag afterWriteOnly.2 F.ReadWrite then
      (false, if correctFlags then afterWriteOnly.2 &&& bitNot F.ReadWrite
        else afterWriteOnly.2)
    else afterWriteOnly
  else
    (true, flags)

/-- One assignment of the flags to eight separate bits, for examples. -/
def separateBits : FlagValues :=
  FlagValues.mk 1 2 4 8 16 32 64 128

/-- Embedding of `IO_Mode::haveFlag (which)`: the test `tmp & in` of the
code, true when the two words share a bit. -/
def haveFlag (itsFlags which : Nat) : Bool := (itsFlags &&& which) != 0

/-- The assignment `m[key] = name` on a `std::map<IO_Mode::Flags,std::string>`,
kept as the list of its entries in the order of the keys: the entry of a key
that is present is replaced, a new key is put in its place in the order. -/
def mapAssign : List (Nat × String) → Nat → String → List (Nat × String)
  | [], key, name => [(key, name)]
  | (k, v) :: rest, key, name =>
    if key < k then (key, name) :: (k, v) :: rest
    else if key = k then (key, name) :: rest
    else (k, v) :: mapAssign rest key name

/-- The eight assignments of `IO_Mode::flagsMap ()` in the order of the
code. -/
def flagNames (F : FlagValues) : List (Nat × String) :=
  [(F.Create, "Create"), (F.CreateNew, "CreateNew"), (F.Open, "Open"),
   (F.OpenOrCreate, "OpenOrCreate"), (F.Truncate, "Truncate"),
   (F.ReadOnly, "ReadOnly"), (F.WriteOnly, "WriteOnly"), (F.ReadWrite, "ReadWrite")]

/-- Embedding of `IO_Mode::flagsMap ()`: the map that the eight assignments
build, starting from the empty map. -/
def flagsMap (F : FlagValues) : List (Nat × String) :=
  (flagNames F).foldl (fun m entry => mapAssign m entry.1 entry.2) []

/-- Embedding of `IO_Mode::flagDescriptions (int const &flags)`: the loop over
the entries of `flagsMap ()` in the order of the keys appends the name of every
flag with `(flags & it->first) == it->first`. -/
def flagDescriptions (F : FlagValues) (flags : Nat) : List String :=
  (flagsMap F).foldl
    (fun names entry => if containsFlag flags entry.1 then names ++ [entry.2] else names) []

/-- Embedding of the static overload `IO_Mode::flagDescriptions (IO_Mode::Flags
const &flag)`.  Its body is the call `flagDescriptions(flag)` with an argument
of type `IO_Mode::Flags const &`, for which overload resolution selects this
same overload (an exact match) and not the one for `int const &`.  `fuel`
bounds the depth of the nested calls; `none` says that no call has returned
within that depth. -/
def flagDescriptionsOfFlag (F : FlagValues) : Nat → Nat → Option (List String)
  | 0, _ => none
  | fuel + 1, flag => flagDescriptionsOfFlag F fuel flag

/-- Embedding of `IO_Mode::addFlag (flag)` on the member `itsFlags`:
`itsFlags = itsFlags | flag`, then `verifyFlags (itsFlags)`, which works on
`itsFlags` by reference.  The default of `correctFlags` is declared in
`IO_Mode.h`, which is not among the source files, and is the parameter
`defaultCorrect`.  The result is the returned status and `itsFlags` after the
call. -/
def addFlag (F : FlagValues) (defaultCorrect : Bool) (itsFlags flag : Nat) : Bool × Nat :=
  verifyFlags F (itsFlags ||| flag) defaultCorrect

/-- Embedding of `IO_Mode::removeFlag (flag)` on the member `itsFlags`:
`itsFlags = itsFlags & (~flag)`, then `verifyFlags (itsFlags)`, and when the
status is `false` the call `addFlag (flag)` whose status is returned. -/
def removeFlag (F : FlagValues) (defaultCorrect : Bool) (itsFlags flag : Nat) : Bool × Nat :=
  if (verifyFlags F (itsFlags &&& bitNot flag) defaultCorrect).1 = false then
    addFlag F defaultCorrect (verifyFlags F (itsFlags &&& bitNot flag) defaultCorrect).2 flag
  else
    verifyFlags F (itsFlags &&& bitNot flag) defaultCorrect

/-- The values of the enumeration are single bits, each flag its own. -/
def SingleBits (F : FlagValues) : Prop :=
  ((flagNames F).map Prod.fst).Nodup ∧ ∀ v ∈ (flagNames F).map Prod.fst, ∃ i, v = 2 ^ i

/-! ## Attribute names: `CommonInterface` -/

/-- The order of `std::string` on the characters of two strings: the first
position where they differ decides, and a proper beginning comes first. -/
def lessChars : List Char → List Char → Bool
  | _, [] => false
  | [], _ :: _ => true
  | a :: as, b :: bs =>
    if a.toNat < b.toNat then true
    else if b.toNat < a.toNat then false
    else lessChars as bs

/-- The order `operator<` of `std::string`, by which the `std::set` of the
attribute names is kept. -/
def less (a b : String) : Bool := lessChars a.data b.data

/-- The state of the member `attributes_p`, a `std::set<std::string>`, is
kept as the list of its elements in the order of iteration; the list of a set
is strictly increasing. -/
def SetOrdered (s : List String) : Prop :=
  s.Pairwise (fun a b => less a b = true)

instance (s : List String) : Decidable (SetOrdered s) := by
  unfold SetOrdered
  infer_instance

/-- The call `attributes_p.count (name)` of `std::set`: 1 if the name is an
element, 0 otherwise. -/
def setCount (s : List String) (name : String) : Nat :=
  if name ∈ s then 1 else 0

/-- The call `attributes_p.insert (name)` of `std::set`: the name takes its
place in the order; a name that is met on the way is not inserted again. -/
def setInsert (name : String) : List String → List String
  | [] => [name]
  | x :: rest =>
    if less name x then name :: x :: rest
    else if name = x then x :: rest
    else x :: setInsert name rest

/-- The call `attributes_p.erase (name)` of `std::set`: the number of
elements removed and the set after the call. -/
def setErase (name : String) : List String → Nat × List String
  | [] => (0, [])
  | x :: rest =>
    if x = name then (1, rest)
    else ((setErase name rest).1, x :: (setErase name rest).2)

/-- Embedding of `CommonInterface::addAttribute (name)`: the returned status
and `attributes_p` after the call. -/
def addAttribute (attributes_p : List String) (name : String) : Bool × List String :=
  if setCount attributes_p name != 0 then (false, attributes_p)
  else (true, setInsert name attributes_p)

/-- Embedding of `CommonInterface::removeAttribute (name)`, which returns
`attributes_p.erase (name)` as a `bool`: the returned status and
`attributes_p` after the call. -/
def removeAttribute (attributes_p : List String) (name : String) : Bool × List String :=
  ((setErase name attributes_p).1 != 0, (setErase name attributes_p).2)

/-- The loop of `CommonInterface::attribute`: `steps` more times `++it`, then
`*it`.  The iterator is the list of the elements from its position on, the
end iterator the empty list; stepping or reading at the end has no defined
result (`none`). -/
def attributeLoop : Nat → List String → Option String
  | 0, it => it.head?
  | steps + 1, it =>
    match it with
    | [] => none
    | _ :: rest => attributeLoop steps rest

/-- Embedding of `CommonInterface::attribute (index)` (named `attributeAt`,
as `attribute` is a reserved word here): the iterator starts at
`attributes_p.begin ()` and is moved forward `index` times, without a test for
the end, and then read. -/
def attributeAt (attributes_p : List String) (index : Nat) : Option String :=
  attributeLoop index attributes_p

/-! ## Facts about the formatting -/

theorem asSigned_of_lt (u : Nat) (h : u < 2 ^ 31) : asSigned u = (u : Int) := by
  have h1 : u % UINT_RANGE = u := Nat.mod_eq_of_lt (by unfold UINT_RANGE; omega)
  unfold asSigned
  rw [h1]
  have h2 : u < UINT_RANGE / 2 := by unfold UINT_RANGE; omega
  simp [h2]

set_option maxRecDepth 100000 in
theorem zeroPad_toDigits_small :
    ∀ n < 1000, zeroPad 3 (Nat.toDigits 10 n) = pad3 n := by
  decide

theorem format03d_small (n : Nat) (h : n < 1000) :
    format03d (asSigned n) = pad3 n := by
  rw [asSigned_of_lt n (by omega)]
  have h0 : ¬ ((n : Int) < 0) := by omega
  simp only [format03d, h0, if_false, Int.toNat_ofNat]
  exact zeroPad_toDigits_small n h

set_option maxRecDepth 100000 in
theorem decimalValue_pad3 : ∀ n < 1000, decimalValue (pad3 n) = n := by
  decide

set_option maxRecDepth 100000 in
theorem pad3_all_isDigit : ∀ n < 1000, (pad3 n).all Char.isDigit = true := by
  decide

theorem sprintfUid_small (a b c : Nat) (ha : a < 1000) (hb : b < 1000)
    (hc : c < 1000) : sprintfUid a b c = pad3 a ++ pad3 b ++ pad3 c := by
  simp only [sprintfUid, format03d_small a ha, format03d_small b hb,
    format03d_small c hc]

theorem channelID_small (a b c : Nat) (ha : a < 1000) (hb : b < 1000)
    (hc : c < 1000) :
    channelID a b c = some (String.mk (pad3 a ++ pad3 b ++ pad3 c)) := by
  simp [channelID, sprintfUid_small a b c ha hb hc, pad3, UID_SIZE]

theorem decode_pad3 (a b c : Nat) (ha : a < 1000) (hb : b < 1000) (hc : c < 1000) :
    decode (String.mk (pad3 a ++ pad3 b ++ pad3 c)) = Except.ok (a, b, c) := by
  have da := decimalValue_pad3 a ha
  have db := decimalValue_pad3 b hb
  have dc := decimalValue_pad3 c hc
  have ia := pad3_all_isDigit a ha
  have ib := pad3_all_isDigit b hb
  have ic := pad3_all_isDigit c hc
  have hall : (pad3 a ++ pad3 b ++ pad3 c).all Char.isDigit = true := by
    rw [List.all_append, List.all_append, ia, ib, ic]; rfl
  have hlen : (pad3 a ++ pad3 b ++ pad3 c).length = 9 := by simp [pad3]
  have h1 : (pad3 a ++ pad3 b ++ pad3 c).take 3 = pad3 a := by simp [pad3]
  have h2 : ((pad3 a ++ pad3 b ++ pad3 c).drop 3).take 3 = pad3 b := by simp [pad3]
  have h3 : ((pad3 a ++ pad3 b ++ pad3 c).drop 6).take 3 = pad3 c := by simp [pad3]
  unfold decode
  simp only [hlen, hall, h1, h2, h3, da, db, dc]
  simp

/-! ## Channel addressing: the claims -/

/-- C1: for ids `a`, `b`, `c`, each in [0,999], `channelID a b c` yields a key
and decoding that key gives back exactly `(a, b, c)`. -/
theorem C1_decode_channelID_roundtrip (a b c : Nat)
    (ha : a ≤ 999) (hb : b ≤ 999) (hc : c ≤ 999) :
    ∃ key, channelID a b c = some key ∧ decode key = Except.ok (a, b, c) :=
  ⟨String.mk (pad3 a ++ pad3 b ++ pad3 c),
    channelID_small a b c (by omega) (by omega) (by omega),
    decode_pad3 a b c (by omega) (by omega) (by omega)⟩

/-- Witness of C1 at the ids (1, 2, 3). -/
theorem C1_decode_channelID_roundtrip_witness :
    ∃ key, channelID 1 2 3 = some key ∧ decode key = Except.ok (1, 2, 3) :=
  C1_decode_channelID_roundtrip 1 2 3 (by decide) (by decide) (by decide)

/-- C2: for ids each in [0,999], `channelID` returns a string of exactly nine
decimal digits, the concatenation of the three ids each zero-padded to three
digits (hundreds, tens, units); `channelID 1 2 3` is "001002003". -/
theorem C2_channelID_nine_digits (station rsp rcu : Nat)
    (hs : station ≤ 999) (hr : rsp ≤ 999) (hu : rcu ≤ 999) :
    ∃ key, channelID station rsp rcu = some key
      ∧ key.length = 9
      ∧ (∀ ch ∈ key.data, ch.isDigit = true)
      ∧ key.data = zeroPad 3 (Nat.toDigits 10 station)
          ++ zeroPad 3 (Nat.toDigits 10 rsp) ++ zeroPad 3 (Nat.toDigits 10 rcu)
      ∧ key.data = pad3 station ++ pad3 rsp ++ pad3 rcu
      ∧ channelID 1 2 3 = some "001002003" := by
  have hs1 : station < 1000 := by omega
  have hr1 : rsp < 1000 := by omega
  have hu1 : rcu < 1000 := by omega
  refine ⟨String.mk (pad3 station ++ pad3 rsp ++ pad3 rcu),
    channelID_small station rsp rcu hs1 hr1 hu1, ?_, ?_, ?_, rfl, by decide⟩
  · simp [String.length, pad3]
  · intro ch hch
    have hall : (pad3 station ++ pad3 rsp ++ pad3 rcu).all Char.isDigit = true := by
      rw [List.all_append, List.all_append, pad3_all_isDigit station hs1,
        pad3_all_isDigit rsp hr1, pad3_all_isDigit rcu hu1]; rfl
    exact List.all_eq_true.mp hall ch hch
  · rw [zeroPad_toDigits_small station hs1, zeroPad_toDigits_small rsp hr1,
      zeroPad_toDigits_small rcu hu1]

/-- Witness of C2 at the ids (1, 2, 3). -/
theorem C2_channelID_nine_digits_witness :
    ∃ key, channelID 1 2 3 = some key
      ∧ key.length = 9
      ∧ (∀ ch ∈ key.data, ch.isDigit = true)
      ∧ key.data = zeroPad 3 (Nat.toDigits 10 1)
          ++ zeroPad 3 (Nat.toDigits 10 2) ++ zeroPad 3 (Nat.toDigits 10 3)
      ∧ key.data = pad3 1 ++ pad3 2 ++ pad3 3
      ∧ channelID 1 2 3 = some "001002003" :=
  C2_channelID_nine_digits 1 2 3 (by decide) (by decide) (by decide)

set_option maxRecDepth 100000 in
theorem format03d_wrapped :
    ∀ k < 99, format03d (asSigned (4294967295 - k))
      = ['-', digitOf ((k + 1) / 10), digitOf ((k + 1) % 10)] := by
  decide

/-- The field which `%03d` prints for an id that is at most 999 or one of the
99 largest values of `unsigned int`. -/
theorem format03d_wrappedPad3 (u : Nat)
    (hu : u ≤ 999 ∨ (4294967197 ≤ u ∧ u ≤ 4294967295)) :
    format03d (asSigned u) = wrappedPad3 u := by
  rcases hu with h | ⟨h1, h2⟩
  · rw [format03d_small u (by omega)]
    simp [wrappedPad3, h]
  · have hk : 4294967295 - u < 99 := by omega
    have e := format03d_wrapped (4294967295 - u) hk
    have e1 : 4294967295 - (4294967295 - u) = u := by omega
    have e2 : 4294967295 - u + 1 = UINT_RANGE - u := by
      unfold UINT_RANGE
      omega
    rw [e1, e2] at e
    rw [e]
    have hn : ¬ u ≤ 999 := by omega
    simp [wrappedPad3, hn]

theorem wrappedPad3_length (u : Nat) : (wrappedPad3 u).length = 3 := by
  unfold wrappedPad3
  split
  · rfl
  · rfl

theorem pad3_append_inj (a b c x y z : Nat)
    (ha : a < 1000) (hb : b < 1000) (hc : c < 1000)
    (hx : x < 1000) (hy : y < 1000) (hz : z < 1000)
    (h : pad3 a ++ pad3 b ++ pad3 c = pad3 x ++ pad3 y ++ pad3 z) :
    a = x ∧ b = y ∧ c = z := by
  have h1 := congrArg (fun l => decimalValue (l.take 3)) h
  have h2 := congrArg (fun l => decimalValue ((l.drop 3).take 3)) h
  have h3 := congrArg (fun l => decimalValue ((l.drop 6).take 3)) h
  have ta : ∀ p q r : Nat, (pad3 p ++ pad3 q ++ pad3 r).take 3 = pad3 p := by
    intro p q r; simp [pad3]
  have tb : ∀ p q r : Nat, ((pad3 p ++ pad3 q ++ pad3 r).drop 3).take 3 = pad3 q := by
    intro p q r; simp [pad3]
  have tc : ∀ p q r : Nat, ((pad3 p ++ pad3 q ++ pad3 r).drop 6).take 3 = pad3 r := by
    intro p q r; simp [pad3]
  simp only [ta, tb, tc] at h1 h2 h3
  rw [decimalValue_pad3 a ha, decimalValue_pad3 x hx] at h1
  rw [decimalValue_pad3 b hb, decimalValue_pad3 y hy] at h2
  rw [decimalValue_pad3 c hc, decimalValue_pad3 z hz] at h3
  exact ⟨h1, h2, h3⟩

/-- C3, counterexample: the station id 4294967295 is greater than 999, and
`channelID 4294967295 0 0` does not fail but returns the key "-01000000". -/
theorem C3_channelID_out_of_range_returns_key :
    999 < (4294967295 : Nat) ∧ 4294967295 < UINT_RANGE
      ∧ channelID 4294967295 0 0 = some "-01000000"
      ∧ channelID 4294967295 0 0 ≠ none := by
  decide

/-- C3, amended: `channelID` makes no range check and has no failure of its
own, and its ids are `unsigned int`, so none is below 0.  An id greater than
999 does not keep it from returning a key: whenever each id is at most 999 or
one of 4294967197..4294967295 (which `%03d` prints as -99..-01), it returns
the key of nine characters made of the three printed fields. -/
theorem C3_channelID_key_without_range_check (a b c : Nat)
    (ha : a ≤ 999 ∨ (4294967197 ≤ a ∧ a ≤ 4294967295))
    (hb : b ≤ 999 ∨ (4294967197 ≤ b ∧ b ≤ 4294967295))
    (hc : c ≤ 999 ∨ (4294967197 ≤ c ∧ c ≤ 4294967295)) :
    ∃ key, channelID a b c = some key
      ∧ key.length = 9
      ∧ key.data = wrappedPad3 a ++ wrappedPad3 b ++ wrappedPad3 c := by
  have hs : sprintfUid a b c = wrappedPad3 a ++ wrappedPad3 b ++ wrappedPad3 c := by
    simp only [sprintfUid, format03d_wrappedPad3 a ha, format03d_wrappedPad3 b hb,
      format03d_wrappedPad3 c hc]
  have hl : (wrappedPad3 a ++ wrappedPad3 b ++ wrappedPad3 c).length = 9 := by
    simp only [List.length_append, wrappedPad3_length]
  refine ⟨String.mk (wrappedPad3 a ++ wrappedPad3 b ++ wrappedPad3 c), ?_, ?_, rfl⟩
  · unfold channelID
    simp only [hs, hl, UID_SIZE]
    rfl
  · show (wrappedPad3 a ++ wrappedPad3 b ++ wrappedPad3 c).length = 9
    exact hl

/-- Witness of the amended C3 at the ids (4294967295, 2, 4294967197), of which
the first and the last are greater than 999. -/
theorem C3_channelID_key_without_range_check_witness :
    ∃ key, channelID 4294967295 2 4294967197 = some key
      ∧ key.length = 9
      ∧ key.data = wrappedPad3 4294967295 ++ wrappedPad3 2 ++ wrappedPad3 4294967197 :=
  C3_channelID_key_without_range_check 4294967295 2 4294967197
    (Or.inr (by decide)) (Or.inl (by decide)) (Or.inr (by decide))

/-- C4: on the bounded domain (every id in [0,999]) `channelID` returns a key,
and equal keys come from equal id triples. -/
theorem C4_channelID_total_injective (a b c x y z : Nat)
    (ha : a ≤ 999) (hb : b ≤ 999) (hc : c ≤ 999)
    (hx : x ≤ 999) (hy : y ≤ 999) (hz : z ≤ 999) :
    (∃ key, channelID a b c = some key)
      ∧ (channelID a b c = channelID x y z → (a, b, c) = (x, y, z)) := by
  have e1 := channelID_small a b c (by omega) (by omega) (by omega)
  have e2 := channelID_small x y z (by omega) (by omega) (by omega)
  refine ⟨⟨_, e1⟩, ?_⟩
  intro h
  rw [e1, e2] at h
  have hl : pad3 a ++ pad3 b ++ pad3 c = pad3 x ++ pad3 y ++ pad3 z :=
    congrArg String.data (Option.some.inj h)
  obtain ⟨h1, h2, h3⟩ := pad3_append_inj a b c x y z (by omega) (by omega)
    (by omega) (by omega) (by omega) (by omega) hl
  rw [h1, h2, h3]

/-- Witness of C4 at the id triples (1, 2, 3) and (999, 0, 7). -/
theorem C4_channelID_total_injective_witness :
    (∃ key, channelID 1 2 3 = some key)
      ∧ (channelID 1 2 3 = channelID 999 0 7 → (1, 2, 3) = (999, 0, 7)) :=
  C4_channelID_total_injective 1 2 3 999 0 7 (by decide) (by decide) (by decide)
    (by decide) (by decide) (by decide)

/-- C5: `decode key` fails with `MalformedKey` if and only if the length of
the key is not 9 or the key contains a character that is not a decimal digit;
`decode "abcdefghi"` fails and `decode "001002003"` is `(1, 2, 3)`. -/
theorem C5_decode_fails_iff_malformed :
    (∀ key : String, decode key = Except.error DecodingError.MalformedKey
        ↔ (key.length ≠ 9 ∨ ∃ ch ∈ key.data, ch.isDigit = false))
      ∧ decode "abcdefghi" = Except.error DecodingError.MalformedKey
      ∧ decode "001002003" = Except.ok (1, 2, 3) := by
  refine ⟨?_, by decide, by decide⟩
  intro key
  have hall : (key.data.all Char.isDigit = true) ↔ ¬ ∃ ch ∈ key.data, ch.isDigit = false := by
    simp [List.all_eq_true]
  unfold decode
  simp only [String.length]
  by_cases hcond : key.data.length ≠ 9 ∨ ¬ (key.data.all Char.isDigit = true)
  · rw [if_pos hcond]
    simp only [true_iff]
    rcases hcond with h | h
    · exact Or.inl h
    · exact Or.inr (by_contra fun hne => h (hall.mpr hne))
  · rw [if_neg hcond]
    constructor
    · intro h; cases h
    · intro h
      exfalso
      apply hcond
      rcases h with h | h
      · exact Or.inl h
      · exact Or.inr (fun hd => hall.mp hd h)

/-! ## Facts about `plan` -/

theorem requiredShape_getD (rank : Nat) (start block stride count : List Nat)
    (i : Nat) (h : i < rank) :
    (requiredShape rank start block stride count).getD i 0
      = requiredAt start block stride count i := by
  simp [requiredShape, List.getElem?_range h]

theorem requiredShape_length (rank : Nat) (start block stride count : List Nat) :
    (requiredShape rank start block stride count).length = rank := by
  simp [requiredShape]

/-- On a well-formed request `plan` passes the rank check and the check for an
empty region, and is decided by the required shape alone. -/
theorem plan_of_wellFormed (currentShape : List Nat) (maxShape : List (Option Nat))
    (chunkShape start block : List Nat) (stride count : Option (List Nat))
    (hwf : WellFormed currentShape maxShape chunkShape start block stride count) :
    plan currentShape maxShape chunkShape start block stride count
      = if (List.range currentShape.length).all
            (fun i => decide ((requiredShape currentShape.length start block
                (stride.getD (ones currentShape.length))
                (count.getD (ones currentShape.length))).getD i 0
              ≤ currentShape.getD i 0)) then
          Except.ok (Plan.mk (Region.mk start block
            (stride.getD (ones currentShape.length))
            (count.getD (ones currentShape.length))) none)
        else
          match (List.range currentShape.length).findSome?
              (exceedsAt maxShape (requiredShape currentShape.length start block
                (stride.getD (ones currentShape.length))
                (count.getD (ones currentShape.length)))) with
          | none => Except.ok (Plan.mk (Region.mk start block
              (stride.getD (ones currentShape.length))
              (count.getD (ones currentShape.length)))
              (some (List.zipWith max currentShape
                (requiredShape currentShape.length start block
                  (stride.getD (ones currentShape.length))
                  (count.getD (ones currentShape.length))))))
          | some (axis, m) =>
            Except.error (GeometryError.ExceedsMaximum axis
              ((requiredShape currentShape.length start block
                (stride.getD (ones currentShape.length))
                (count.getD (ones currentShape.length))).getD axis 0) m) := by
  obtain ⟨⟨h1, h2, h3, h4, h5, h6⟩, hb, hc⟩ := hwf
  have hrank : ¬ (maxShape.length ≠ currentShape.length
      ∨ chunkShape.length ≠ currentShape.length
      ∨ start.length ≠ currentShape.length ∨ block.length ≠ currentShape.length
      ∨ (stride.getD (ones currentShape.length)).length ≠ currentShape.length
      ∨ (count.getD (ones currentShape.length)).length ≠ currentShape.length) := by
    simp [h1, h2, h3, h4, h5, h6]
  have hempty : ((block.any fun b => b == 0)
      || ((count.getD (ones currentShape.length)).any fun c => c == 0)) = false := by
    rw [Bool.or_eq_false_iff, List.any_eq_false, List.any_eq_false]
    constructor
    · intro x hx hx0
      have := hb x hx
      simp at hx0
      omega
    · intro x hx hx0
      have := hc x hx
      simp at hx0
      omega
  unfold plan
  simp only [if_neg hrank, hempty]
  rfl

theorem plan_no_growth (currentShape : List Nat) (maxShape : List (Option Nat))
    (chunkShape start block : List Nat) (stride count : Option (List Nat))
    (hwf : WellFormed currentShape maxShape chunkShape start block stride count)
    (hfit : ∀ i, i < currentShape.length →
      requiredAt start block (stride.getD (ones currentShape.length))
        (count.getD (ones currentShape.length)) i ≤ currentShape.getD i 0) :
    plan currentShape maxShape chunkShape start block stride count
      = Except.ok (Plan.mk (Region.mk start block
          (stride.getD (ones currentShape.length))
          (count.getD (ones currentShape.length))) none) := by
  rw [plan_of_wellFormed _ _ _ _ _ _ _ hwf, if_pos]
  rw [List.all_eq_true]
  intro i hi
  have hi1 : i < currentShape.length := List.mem_range.mp hi
  rw [requiredShape_getD _ _ _ _ _ _ hi1]
  exact decide_eq_true (hfit i hi1)

theorem plan_ok_descriptor (currentShape : List Nat) (maxShape : List (Option Nat))
    (chunkShape start block : List Nat) (stride count : Option (List Nat))
    (p : Plan)
    (hp : plan currentShape maxShape chunkShape start block stride count = Except.ok p) :
    p.descriptor = Region.mk start block (stride.getD (ones currentShape.length))
        (count.getD (ones currentShape.length))
      ∧ (∀ b ∈ block, 1 ≤ b)
      ∧ (∀ c ∈ count.getD (ones currentShape.length), 1 ≤ c)
      ∧ RanksMatch currentShape maxShape chunkShape start block stride count := by
  unfold plan at hp
  simp only [] at hp
  split at hp
  · cases hp
  · rename_i hranks
    split at hp
    · cases hp
    · rename_i hempty
      have hranks1 : RanksMatch currentShape maxShape chunkShape start block stride count := by
        unfold RanksMatch
        simp only [not_or, ne_eq, not_not] at hranks
        exact hranks
      have hpos : (∀ b ∈ block, 1 ≤ b)
          ∧ (∀ c ∈ count.getD (ones currentShape.length), 1 ≤ c) := by
        simp only [Bool.or_eq_true, not_or, Bool.not_eq_true, List.any_eq_false] at hempty
        constructor
        · intro b hb
          have := hempty.1 b hb
          simp at this
          omega
        · intro c hc
          have := hempty.2 c hc
          simp at this
          omega
      split at hp
      · cases hp
        exact ⟨rfl, hpos.1, hpos.2, hranks1⟩
      · split at hp
        · cases hp
          exact ⟨rfl, hpos.1, hpos.2, hranks1⟩
        · cases hp

theorem exceedsAt_eq_some (maxShape : List (Option Nat)) (required : List Nat)
    (i axis m : Nat) (h : exceedsAt maxShape required i = some (axis, m)) :
    i = axis ∧ maxShape.getD i none = some m ∧ m < required.getD i 0 := by
  unfold exceedsAt at h
  split at h
  · cases h
  · rename_i m1 hm
    split at h
    · rename_i hlt
      cases h
      exact ⟨rfl, hm, hlt⟩
    · cases h

theorem exceedsAt_eq_none (maxShape : List (Option Nat)) (required : List Nat)
    (i : Nat) (h : ∀ m, maxShape.getD i none = some m → required.getD i 0 ≤ m) :
    exceedsAt maxShape required i = none := by
  unfold exceedsAt
  split
  · rfl
  · rename_i m1 hm
    have := h m1 hm
    rw [if_neg (by omega)]

theorem plan_extend (currentShape : List Nat) (maxShape : List (Option Nat))
    (chunkShape start block : List Nat) (stride count : Option (List Nat))
    (hwf : WellFormed currentShape maxShape chunkShape start block stride count)
    (hgrow : ∃ i, i < currentShape.length ∧ currentShape.getD i 0 <
      requiredAt start block (stride.getD (ones currentShape.length))
        (count.getD (ones currentShape.length)) i)
    (hmax : ∀ i, i < currentShape.length → ∀ m, maxShape.getD i none = some m →
      requiredAt start block (stride.getD (ones currentShape.length))
        (count.getD (ones currentShape.length)) i ≤ m) :
    plan currentShape maxShape chunkShape start block stride count
      = Except.ok (Plan.mk (Region.mk start block
          (stride.getD (ones currentShape.length))
          (count.getD (ones currentShape.length)))
          (some (List.zipWith max currentShape
            (requiredShape currentShape.length start block
              (stride.getD (ones currentShape.length))
              (count.getD (ones currentShape.length)))))) := by
  rw [plan_of_wellFormed _ _ _ _ _ _ _ hwf, if_neg]
  · have hnone : (List.range currentShape.length).findSome?
        (exceedsAt maxShape (requiredShape currentShape.length start block
          (stride.getD (ones currentShape.length))
          (count.getD (ones currentShape.length)))) = none := by
      rw [List.findSome?_eq_none_iff]
      intro i hi
      have hi1 : i < currentShape.length := List.mem_range.mp hi
      apply exceedsAt_eq_none
      intro m hm
      rw [requiredShape_getD _ _ _ _ _ _ hi1]
      exact hmax i hi1 m hm
    rw [hnone]
  · rw [List.all_eq_true]
    intro hall
    obtain ⟨i, hi, hlt⟩ := hgrow
    have := hall i (List.mem_range.mpr hi)
    rw [requiredShape_getD _ _ _ _ _ _ hi] at this
    have := of_decide_eq_true this
    omega

theorem plan_exceeds (currentShape : List Nat) (maxShape : List (Option Nat))
    (chunkShape start block : List Nat) (stride count : Option (List Nat))
    (hwf : WellFormed currentShape maxShape chunkShape start block stride count)
    (hinv : ExtentInvariant currentShape maxShape)
    (hex : ∃ i, i < currentShape.length ∧ ∃ m, maxShape.getD i none = some m ∧
      m < requiredAt start block (stride.getD (ones currentShape.length))
        (count.getD (ones currentShape.length)) i) :
    ∃ axis m,
      plan currentShape maxShape chunkShape start block stride count
        = Except.error (GeometryError.ExceedsMaximum axis
            (requiredAt start block (stride.getD (ones currentShape.length))
              (count.getD (ones currentShape.length)) axis) m)
      ∧ axis < currentShape.length
      ∧ maxShape.getD axis none = some m
      ∧ m < requiredAt start block (stride.getD (ones currentShape.length))
          (count.getD (ones currentShape.length)) axis := by
  obtain ⟨i, hi, m, hm, hlt⟩ := hex
  rw [plan_of_wellFormed _ _ _ _ _ _ _ hwf, if_neg]
  · cases hfind : (List.range currentShape.length).findSome?
        (exceedsAt maxShape (requiredShape currentShape.length start block
          (stride.getD (ones currentShape.length))
          (count.getD (ones currentShape.length)))) with
    | none =>
      exfalso
      rw [List.findSome?_eq_none_iff] at hfind
      have h1 := hfind i (List.mem_range.mpr hi)
      unfold exceedsAt at h1
      rw [hm, requiredShape_getD _ _ _ _ _ _ hi] at h1
      simp only [if_pos hlt] at h1
      cases h1
    | some found =>
      obtain ⟨axis, m1⟩ := found
      obtain ⟨j, hj, hj1⟩ := List.exists_of_findSome?_eq_some hfind
      have hj2 : j < currentShape.length := List.mem_range.mp hj
      obtain ⟨e1, e2, e3⟩ := exceedsAt_eq_some _ _ _ _ _ hj1
      subst e1
      rw [requiredShape_getD _ _ _ _ _ _ hj2] at e3
      refine ⟨j, m1, ?_, hj2, e2, e3⟩
      simp only [requiredShape_getD _ _ _ _ _ _ hj2]
  · rw [List.all_eq_true]
    intro hall
    have h1 := hall i (List.mem_range.mpr hi)
    rw [requiredShape_getD _ _ _ _ _ _ hi] at h1
    have h2 := of_decide_eq_true h1
    have h3 := hinv i hi m hm
    omega

theorem zipWith_max_getD (xs ys : List Nat) (i : Nat) (hx : i < xs.length)
    (hy : i < ys.length) :
    (List.zipWith max xs ys).getD i 0 = max (xs.getD i 0) (ys.getD i 0) := by
  simp [List.getElem?_zipWith, List.getElem?_eq_getElem hx, List.getElem?_eq_getElem hy]

/-- What a successful `plan` says about growth: either no growth and the
request fits into the current shape, or growth to the elementwise maximum. -/
theorem plan_ok_extendTo (currentShape : List Nat) (maxShape : List (Option Nat))
    (chunkShape start block : List Nat) (stride count : Option (List Nat))
    (p : Plan)
    (hp : plan currentShape maxShape chunkShape start block stride count = Except.ok p) :
    (p.extendTo = none ∧ ∀ i, i < currentShape.length →
        requiredAt start block (stride.getD (ones currentShape.length))
          (count.getD (ones currentShape.length)) i ≤ currentShape.getD i 0)
      ∨ p.extendTo = some (List.zipWith max currentShape
          (requiredShape currentShape.length start block
            (stride.getD (ones currentShape.length))
            (count.getD (ones currentShape.length)))) := by
  obtain ⟨_, hb, hc, hr⟩ := plan_ok_descriptor _ _ _ _ _ _ _ p hp
  rw [plan_of_wellFormed _ _ _ _ _ _ _ ⟨hr, hb, hc⟩] at hp
  split at hp
  · rename_i hall
    cases hp
    left
    refine ⟨rfl, ?_⟩
    intro i hi
    rw [List.all_eq_true] at hall
    have h1 := hall i (List.mem_range.mpr hi)
    rw [requiredShape_getD _ _ _ _ _ _ hi] at h1
    exact of_decide_eq_true h1
  · split at hp
    · cases hp
      right
      rfl
    · cases hp

/-! ## Facts about `write` -/

theorem write_shape_of_no_extend {Handle Elem : Type} (B : Backend Handle Elem)
    (arr : ExtensibleArray Handle) (buffer : List Elem) (start block : List Nat)
    (stride count : Option (List Nat))
    (h : ∀ p, plan arr.currentShape arr.maxShape arr.chunkShape start block stride count
      = Except.ok p → p.extendTo = none) :
    (write B arr buffer start block stride count).2.currentShape = arr.currentShape := by
  unfold write
  split
  · rfl
  · rename_i p hp
    have hnone := h p hp
    rw [hnone]
    simp only []
    split <;> rfl

theorem write_shape_of_extend {Handle Elem : Type} (B : Backend Handle Elem)
    (arr : ExtensibleArray Handle) (buffer : List Elem) (start block : List Nat)
    (stride count : Option (List Nat)) (p : Plan) (newShape : List Nat) (h1 : Handle)
    (hp : plan arr.currentShape arr.maxShape arr.chunkShape start block stride count
      = Except.ok p)
    (hext : p.extendTo = some newShape)
    (hb : B.backendExtend arr.handle newShape = some h1) :
    (write B arr buffer start block stride count).2.currentShape = newShape := by
  unfold write
  rw [hp]
  simp only [hext, hb]
  split <;> rfl

theorem write_ok_shape {Handle Elem : Type} (B : Backend Handle Elem)
    (arr arr1 : ExtensibleArray Handle) (buffer : List Elem) (start block : List Nat)
    (stride count : Option (List Nat))
    (hw : write B arr buffer start block stride count = (Except.ok (), arr1)) :
    ∃ p, plan arr.currentShape arr.maxShape arr.chunkShape start block stride count
        = Except.ok p
      ∧ arr1.currentShape = p.extendTo.getD arr.currentShape := by
  unfold write at hw
  split at hw
  · cases hw
  · rename_i p hp
    refine ⟨p, hp, ?_⟩
    split at hw
    · rename_i hnone
      split at hw
      · cases hw
      · cases hw
        rw [hnone]
        rfl
    · rename_i s hsome
      split at hw
      · cases hw
      · split at hw
        · cases hw
        · cases hw
          rw [hsome]
          rfl

/-! ## Geometry: the claims -/

/-- C6: for every well-formed request whose required shape is at most the
current shape on every axis, `plan` returns a plan without growth
(`extendTo = none`).  Writing the 100 single-row blocks [1,2048] at start
[step,0] into a dataset of shape [100,2048] never extends it: the plan has no
growth and the shape after `write` is the shape before, on every backend. -/
theorem C6_plan_no_growth_when_fits (currentShape : List Nat)
    (maxShape : List (Option Nat)) (chunkShape start block : List Nat)
    (stride count : Option (List Nat))
    (hwf : WellFormed currentShape maxShape chunkShape start block stride count)
    (hfit : ∀ i, i < currentShape.length →
      requiredAt start block (stride.getD (ones currentShape.length))
        (count.getD (ones currentShape.length)) i ≤ currentShape.getD i 0) :
    plan currentShape maxShape chunkShape start block stride count
        = Except.ok (Plan.mk (Region.mk start block
            (stride.getD (ones currentShape.length))
            (count.getD (ones currentShape.length))) none)
      ∧ (∀ step, step < 100 → ∀ (m0 m1 : Option Nat) (c0 c1 : Nat),
          plan [100, 2048] [m0, m1] [c0, c1] [step, 0] [1, 2048] none none
            = Except.ok (Plan.mk (Region.mk [step, 0] [1, 2048] [1, 1] [1, 1]) none))
      ∧ (∀ {Handle Elem : Type} (B : Backend Handle Elem) (h : Handle)
          (m0 m1 : Option Nat) (c0 c1 : Nat) (buffer : List Elem) (step : Nat),
          step < 100 →
          (write B (ExtensibleArray.mk h [100, 2048] [m0, m1] [c0, c1]) buffer
            [step, 0] [1, 2048] none none).2.currentShape = [100, 2048]) := by
  have single : ∀ step, step < 100 → ∀ (m0 m1 : Option Nat) (c0 c1 : Nat),
      plan [100, 2048] [m0, m1] [c0, c1] [step, 0] [1, 2048] none none
        = Except.ok (Plan.mk (Region.mk [step, 0] [1, 2048] [1, 1] [1, 1]) none) := by
    intro step hstep m0 m1 c0 c1
    have hwf1 : WellFormed [100, 2048] [m0, m1] [c0, c1] [step, 0] [1, 2048] none none := by
      refine ⟨by simp [RanksMatch, ones], ?_, ?_⟩
      · intro b hb; simp at hb; omega
      · intro c hc; simp [ones] at hc; omega
    have := plan_no_growth [100, 2048] [m0, m1] [c0, c1] [step, 0] [1, 2048] none none hwf1
      (by
        intro i hi
        simp only [List.length_cons, List.length_nil] at hi
        interval_cases i <;> simp [requiredAt, ones]
        omega)
    simpa [ones] using this
  refine ⟨plan_no_growth _ _ _ _ _ _ _ hwf hfit, single, ?_⟩
  intro Handle Elem B h m0 m1 c0 c1 buffer step hstep
  apply write_shape_of_no_extend
  intro p hp
  simp only [] at hp
  rw [single step hstep m0 m1 c0 c1] at hp
  cases hp
  rfl

/-- Witness of C6: a single row written at start [7,0] into a dataset of
shape [100,2048]. -/
theorem C6_plan_no_growth_when_fits_witness :
    plan [100, 2048] [none, some 2048] [100, 2048] [7, 0] [1, 2048] none none
      = Except.ok (Plan.mk (Region.mk [7, 0] [1, 2048] [1, 1] [1, 1]) none) :=
  (C6_plan_no_growth_when_fits [100, 2048] [none, some 2048] [100, 2048] [7, 0]
    [1, 2048] none none (by decide) (by decide)).1

/-- C7: for every well-formed request whose required shape exceeds the
current shape on some axis and is at most the maximum on every bounded axis,
`plan` returns `extendTo` equal to the elementwise maximum of the current and
the required shape, whatever the chunk shape, without rounding up to chunk
multiples.  With shape [0,2048] and chunk [100,2048], the block [10,2048] at
start [0,0] is planned to extend to [10,2048], and after `write` (on a backend
that carries out the extension) the current shape is [10,2048]. -/
theorem C7_plan_extends_to_elementwise_max (currentShape : List Nat)
    (maxShape : List (Option Nat)) (chunkShape start block : List Nat)
    (stride count : Option (List Nat))
    (hwf : WellFormed currentShape maxShape chunkShape start block stride count)
    (hgrow : ∃ i, i < currentShape.length ∧ currentShape.getD i 0 <
      requiredAt start block (stride.getD (ones currentShape.length))
        (count.getD (ones currentShape.length)) i)
    (hmax : ∀ i, i < currentShape.length → ∀ m, maxShape.getD i none = some m →
      requiredAt start block (stride.getD (ones currentShape.length))
        (count.getD (ones currentShape.length)) i ≤ m) :
    (∃ newShape,
        plan currentShape maxShape chunkShape start block stride count
          = Except.ok (Plan.mk (Region.mk start block
              (stride.getD (ones currentShape.length))
              (count.getD (ones currentShape.length))) (some newShape))
        ∧ newShape.length = currentShape.length
        ∧ ∀ i, i < currentShape.length →
            newShape.getD i 0 = max (currentShape.getD i 0)
              (requiredAt start block (stride.getD (ones currentShape.length))
                (count.getD (ones currentShape.length)) i))
      ∧ plan [0, 2048] [none, some 2048] [100, 2048] [0, 0] [10, 2048] none none
          = Except.ok (Plan.mk (Region.mk [0, 0] [10, 2048] [1, 1] [1, 1])
              (some [10, 2048]))
      ∧ (∀ {Handle Elem : Type} (B : Backend Handle Elem) (h h1 : Handle)
          (buffer : List Elem), B.backendExtend h [10, 2048] = some h1 →
          (write B (ExtensibleArray.mk h [0, 2048] [none, some 2048] [100, 2048])
            buffer [0, 0] [10, 2048] none none).2.currentShape = [10, 2048]) := by
  refine ⟨⟨_, plan_extend _ _ _ _ _ _ _ hwf hgrow hmax, ?_, ?_⟩, by decide, ?_⟩
  · simp [requiredShape_length]
  · intro i hi
    rw [zipWith_max_getD _ _ _ hi (by rw [requiredShape_length]; exact hi),
      requiredShape_getD _ _ _ _ _ _ hi]
  · intro Handle Elem B h h1 buffer hb
    have hplan : plan [0, 2048] [none, some 2048] [100, 2048] [0, 0] [10, 2048] none none
        = Except.ok (Plan.mk (Region.mk [0, 0] [10, 2048] [1, 1] [1, 1])
            (some [10, 2048])) := by decide
    exact write_shape_of_extend B (ExtensibleArray.mk h [0, 2048] [none, some 2048]
      [100, 2048]) buffer _ _ _ _ _ [10, 2048] h1 hplan rfl hb

/-- Witness of C7: Scenario A, shape [0,2048], chunk [100,2048], block
[10,2048] at start [0,0]. -/
theorem C7_plan_extends_to_elementwise_max_witness :
    ∃ newShape,
      plan [0, 2048] [none, some 2048] [100, 2048] [0, 0] [10, 2048] none none
        = Except.ok (Plan.mk (Region.mk [0, 0] [10, 2048]
            ((none : Option (List Nat)).getD (ones 2))
            ((none : Option (List Nat)).getD (ones 2))) (some newShape))
      ∧ newShape.length = 2
      ∧ ∀ i, i < 2 → newShape.getD i 0 = max (([0, 2048] : List Nat).getD i 0)
          (requiredAt [0, 0] [10, 2048] ((none : Option (List Nat)).getD (ones 2))
            ((none : Option (List Nat)).getD (ones 2)) i) :=
  (C7_plan_extends_to_elementwise_max [0, 2048] [none, some 2048] [100, 2048]
    [0, 0] [10, 2048] none none (by decide) ⟨0, by decide, by decide⟩ (by decide)).1

/-- C8: for every well-formed request on a dataset (whose extent keeps
`currentShape ≤ maxShape`) with a required shape that exceeds a finite maximum
on some axis, `plan` fails with `ExceedsMaximum axis requested max`, where the
bound is exceeded on `axis`, `requested` is the required size on that axis and
`max` is the maximum of that axis.  Maximum [100,2048], start [95,0], block
[10,2048] gives `ExceedsMaximum 0 105 100`. -/
theorem C8_plan_exceeds_maximum (currentShape : List Nat)
    (maxShape : List (Option Nat)) (chunkShape start block : List Nat)
    (stride count : Option (List Nat))
    (hwf : WellFormed currentShape maxShape chunkShape start block stride count)
    (hinv : ExtentInvariant currentShape maxShape)
    (hex : ∃ i, i < currentShape.length ∧ ∃ m, maxShape.getD i none = some m ∧
      m < requiredAt start block (stride.getD (ones currentShape.length))
        (count.getD (ones currentShape.length)) i) :
    (∃ axis m,
        plan currentShape maxShape chunkShape start block stride count
          = Except.error (GeometryError.ExceedsMaximum axis
              (requiredAt start block (stride.getD (ones currentShape.length))
                (count.getD (ones currentShape.length)) axis) m)
        ∧ axis < currentShape.length
        ∧ maxShape.getD axis none = some m
        ∧ m < requiredAt start block (stride.getD (ones currentShape.length))
            (count.getD (ones currentShape.length)) axis)
      ∧ (∀ (c0 c1 r0 : Nat), r0 ≤ 100 →
          plan [r0, 2048] [some 100, some 2048] [c0, c1] [95, 0] [10, 2048] none none
            = Except.error (GeometryError.ExceedsMaximum 0 105 100)) := by
  refine ⟨plan_exceeds _ _ _ _ _ _ _ hwf hinv hex, ?_⟩
  intro c0 c1 r0 hr0
  have hwf1 : WellFormed [r0, 2048] [some 100, some 2048] [c0, c1] [95, 0]
      [10, 2048] none none := by
    refine ⟨by simp [RanksMatch, ones], ?_, ?_⟩
    · intro b hb; simp at hb; omega
    · intro c hc; simp [ones] at hc; omega
  have hinv1 : ExtentInvariant [r0, 2048] [some 100, some 2048] := by
    intro i hi m hm
    simp only [List.length_cons, List.length_nil] at hi
    interval_cases i <;> simp at hm ⊢ <;> omega
  obtain ⟨axis, m, hp, hax, hm, hlt⟩ := plan_exceeds [r0, 2048] [some 100, some 2048]
    [c0, c1] [95, 0] [10, 2048] none none hwf1 hinv1
    ⟨0, by simp, 100, by simp, by simp [requiredAt, ones]⟩
  simp only [List.length_cons, List.length_nil] at hax
  rw [hp]
  interval_cases axis
  · simp at hm
    subst hm
    simp [requiredAt, ones]
  · simp [requiredAt, ones] at hm hlt
    omega

/-- Witness of C8: Scenario C, a dataset of shape [100,2048] with maximum
[100,2048], start [95,0], block [10,2048]. -/
theorem C8_plan_exceeds_maximum_witness :
    ∃ axis m,
      plan [100, 2048] [some 100, some 2048] [100, 2048] [95, 0] [10, 2048] none none
        = Except.error (GeometryError.ExceedsMaximum axis
            (requiredAt [95, 0] [10, 2048] ((none : Option (List Nat)).getD (ones 2))
              ((none : Option (List Nat)).getD (ones 2)) axis) m)
      ∧ axis < 2
      ∧ ([some 100, some 2048] : List (Option Nat)).getD axis none = some m
      ∧ m < requiredAt [95, 0] [10, 2048] ((none : Option (List Nat)).getD (ones 2))
          ((none : Option (List Nat)).getD (ones 2)) axis :=
  (C8_plan_exceeds_maximum [100, 2048] [some 100, some 2048] [100, 2048] [95, 0]
    [10, 2048] none none (by decide) (by decide)
    ⟨0, by decide, 100, by decide, by decide⟩).1

/-- C9: for every request with matching ranks in which some block size or
some count is zero, `plan` fails with `EmptyRegion`; and the descriptor of
every successful plan has a block size and a count of at least one on every
axis (and as many entries as the dataset has axes). -/
theorem C9_plan_empty_region (currentShape : List Nat)
    (maxShape : List (Option Nat)) (chunkShape start block : List Nat)
    (stride count : Option (List Nat))
    (hranks : RanksMatch currentShape maxShape chunkShape start block stride count) :
    ((0 ∈ block ∨ 0 ∈ count.getD (ones currentShape.length)) →
        plan currentShape maxShape chunkShape start block stride count
          = Except.error GeometryError.EmptyRegion)
      ∧ (∀ p, plan currentShape maxShape chunkShape start block stride count
            = Except.ok p →
          p.descriptor.block.length = currentShape.length
            ∧ p.descriptor.count.length = currentShape.length
            ∧ (∀ i, i < currentShape.length →
                1 ≤ p.descriptor.block.getD i 0 ∧ 1 ≤ p.descriptor.count.getD i 0)
            ∧ (∀ b ∈ p.descriptor.block, 1 ≤ b)
            ∧ (∀ c ∈ p.descriptor.count, 1 ≤ c)) := by
  constructor
  · intro hzero
    obtain ⟨h1, h2, h3, h4, h5, h6⟩ := hranks
    have hrank : ¬ (maxShape.length ≠ currentShape.length
        ∨ chunkShape.length ≠ currentShape.length
        ∨ start.length ≠ currentShape.length ∨ block.length ≠ currentShape.length
        ∨ (stride.getD (ones currentShape.length)).length ≠ currentShape.length
        ∨ (count.getD (ones currentShape.length)).length ≠ currentShape.length) := by
      simp [h1, h2, h3, h4, h5, h6]
    have hempty : ((block.any fun b => b == 0)
        || ((count.getD (ones currentShape.length)).any fun c => c == 0)) = true := by
      rw [Bool.or_eq_true, List.any_eq_true, List.any_eq_true]
      rcases hzero with h | h
      · exact Or.inl ⟨0, h, by simp⟩
      · exact Or.inr ⟨0, h, by simp⟩
    unfold plan
    simp only [if_neg hrank, hempty]
    rfl
  · intro p hp
    obtain ⟨hd, hb, hc, hr⟩ := plan_ok_descriptor _ _ _ _ _ _ _ p hp
    obtain ⟨_, _, _, h4, _, h6⟩ := hr
    rw [hd]
    refine ⟨h4, h6, ?_, hb, hc⟩
    intro i hi
    simp only []
    constructor
    · have hi4 : i < block.length := by omega
      have := hb block[i] (List.getElem_mem hi4)
      simpa [List.getElem?_eq_getElem hi4] using this
    · have hi6 : i < (count.getD (ones currentShape.length)).length := by omega
      have := hc (count.getD (ones currentShape.length))[i] (List.getElem_mem hi6)
      simpa [List.getElem?_eq_getElem hi6] using this

/-- Witness of C9: a request of rank 2 with a block size of zero on axis 0. -/
theorem C9_plan_empty_region_witness :
    plan [100, 2048] [none, some 2048] [100, 2048] [0, 0] [0, 2048] none none
      = Except.error GeometryError.EmptyRegion :=
  (C9_plan_empty_region [100, 2048] [none, some 2048] [100, 2048] [0, 0] [0, 2048]
    none none (by decide)).1 (Or.inl (by decide))

/-- C10: after every successful `write`, in particular one that extends the
dataset, the current shape is elementwise at least the current shape before
the write and at least the required shape of the write; when the plan asked
for an extension, the new current shape is that extension.  Writing the block
[10,2048] at start [10,0] to an array of shape [10,2048] leaves the current
shape [20,2048]. -/
theorem C10_write_shape_monotone {Handle Elem : Type} (B : Backend Handle Elem)
    (arr arr1 : ExtensibleArray Handle) (buffer : List Elem) (start block : List Nat)
    (stride count : Option (List Nat))
    (hw : write B arr buffer start block stride count = (Except.ok (), arr1)) :
    (arr1.currentShape.length = arr.currentShape.length
        ∧ ∀ i, i < arr.currentShape.length →
            arr.currentShape.getD i 0 ≤ arr1.currentShape.getD i 0
            ∧ requiredAt start block (stride.getD (ones arr.currentShape.length))
                (count.getD (ones arr.currentShape.length)) i
              ≤ arr1.currentShape.getD i 0)
      ∧ (∀ p newShape,
          plan arr.currentShape arr.maxShape arr.chunkShape start block stride count
            = Except.ok p →
          p.extendTo = some newShape → arr1.currentShape = newShape)
      ∧ (∀ {Handle1 Elem1 : Type} (B1 : Backend Handle1 Elem1) (h : Handle1)
          (buffer1 : List Elem1) (after : ExtensibleArray Handle1),
          write B1 (ExtensibleArray.mk h [10, 2048] [none, some 2048] [100, 2048])
            buffer1 [10, 0] [10, 2048] none none = (Except.ok (), after) →
          after.currentShape = [20, 2048]) := by
  obtain ⟨p, hp, hshape⟩ := write_ok_shape B arr arr1 buffer start block stride count hw
  refine ⟨?_, ?_, ?_⟩
  · rcases plan_ok_extendTo _ _ _ _ _ _ _ p hp with ⟨hnone, hfit⟩ | hsome
    · rw [hnone] at hshape
      simp only [Option.getD_none] at hshape
      rw [hshape]
      exact ⟨rfl, fun i hi => ⟨Nat.le_refl _, hfit i hi⟩⟩
    · rw [hsome] at hshape
      simp only [Option.getD_some] at hshape
      rw [hshape]
      refine ⟨by simp [requiredShape_length], ?_⟩
      intro i hi
      rw [zipWith_max_getD _ _ _ hi (by rw [requiredShape_length]; exact hi),
        requiredShape_getD _ _ _ _ _ _ hi]
      exact ⟨Nat.le_max_left _ _, Nat.le_max_right _ _⟩
  · intro q newShape hq hext
    rw [hp] at hq
    cases hq
    rw [hshape, hext]
    rfl
  · intro Handle1 Elem1 B1 h buffer1 after hw1
    obtain ⟨q, hq, hshape1⟩ := write_ok_shape B1 _ after buffer1 _ _ _ _ hw1
    have hplan : plan [10, 2048] [none, some 2048] [100, 2048] [10, 0] [10, 2048] none none
        = Except.ok (Plan.mk (Region.mk [10, 0] [10, 2048] [1, 1] [1, 1])
            (some [20, 2048])) := by decide
    simp only [] at hq
    rw [hplan] at hq
    cases hq
    exact hshape1

/-- Witness of C10: Scenario B on a backend where every operation succeeds. -/
theorem C10_write_shape_monotone_witness :
    ([20, 2048] : List Nat).length = ([10, 2048] : List Nat).length
      ∧ ([10, 2048] : List Nat).getD 0 0 ≤ ([20, 2048] : List Nat).getD 0 0
      ∧ requiredAt [10, 0] [10, 2048] (ones 2) (ones 2) 0 ≤ ([20, 2048] : List Nat).getD 0 0 :=
  have h := (C10_write_shape_monotone nullBackend
    (ExtensibleArray.mk () [10, 2048] [none, some 2048] [100, 2048])
    (ExtensibleArray.mk () [20, 2048] [none, some 2048] [100, 2048])
    [] [10, 0] [10, 2048] none none rfl).1
  ⟨h.1, h.2 0 (by decide)⟩

/-! ## Rejected writes, reads and sequences of operations -/

/-- What a successful `plan` with growth says: the new shape is the
elementwise maximum and the required size is within every bounded maximum. -/
theorem plan_ok_extend_bound (currentShape : List Nat) (maxShape : List (Option Nat))
    (chunkShape start block : List Nat) (stride count : Option (List Nat))
    (p : Plan) (newShape : List Nat)
    (hp : plan currentShape maxShape chunkShape start block stride count = Except.ok p)
    (hext : p.extendTo = some newShape) :
    newShape = List.zipWith max currentShape
        (requiredShape currentShape.length start block
          (stride.getD (ones currentShape.length))
          (count.getD (ones currentShape.length)))
      ∧ ∀ i, i < currentShape.length → ∀ m, maxShape.getD i none = some m →
          requiredAt start block (stride.getD (ones currentShape.length))
            (count.getD (ones currentShape.length)) i ≤ m := by
  obtain ⟨_, hb, hc, hr⟩ := plan_ok_descriptor _ _ _ _ _ _ _ p hp
  rw [plan_of_wellFormed _ _ _ _ _ _ _ ⟨hr, hb, hc⟩] at hp
  split at hp
  · cases hp
    cases hext
  · split at hp
    · rename_i hfind
      cases hp
      cases hext
      refine ⟨rfl, ?_⟩
      intro i hi m hm
      rw [List.findSome?_eq_none_iff] at hfind
      have h1 := hfind i (List.mem_range.mpr hi)
      unfold exceedsAt at h1
      rw [hm, requiredShape_getD _ _ _ _ _ _ hi] at h1
      by_contra hlt
      have hlt1 : m < requiredAt start block (stride.getD (ones currentShape.length))
          (count.getD (ones currentShape.length)) i := by omega
      simp only [if_pos hlt1] at h1
      cases h1
    · cases hp

theorem write_of_plan_error {Handle Elem : Type} (B : Backend Handle Elem)
    (arr : ExtensibleArray Handle) (buffer : List Elem) (start block : List Nat)
    (stride count : Option (List Nat)) (e : GeometryError)
    (he : plan arr.currentShape arr.maxShape arr.chunkShape start block stride count
      = Except.error e) :
    write B arr buffer start block stride count
      = (Except.error (WriteError.Geometry e), arr) := by
  unfold write
  rw [he]

theorem read_frame {Handle Elem : Type} (B : Backend Handle Elem)
    (arr : ExtensibleArray Handle) (start block : List Nat)
    (stride count : Option (List Nat)) :
    (read B arr start block stride count).2 = arr := by
  unfold read
  split
  · rfl
  · rfl
  · split
    · rfl
    · split <;> rfl

/-- A well-formed request that does not fit into the current shape is
planned with growth or rejected with `ExceedsMaximum`. -/
theorem plan_of_not_fit (currentShape : List Nat) (maxShape : List (Option Nat))
    (chunkShape start block : List Nat) (stride count : Option (List Nat))
    (hwf : WellFormed currentShape maxShape chunkShape start block stride count)
    (hout : ∃ i, i < currentShape.length ∧ currentShape.getD i 0 <
      requiredAt start block (stride.getD (ones currentShape.length))
        (count.getD (ones currentShape.length)) i) :
    (∃ d newShape, plan currentShape maxShape chunkShape start block stride count
        = Except.ok (Plan.mk d (some newShape)))
      ∨ (∃ axis requested m,
          plan currentShape maxShape chunkShape start block stride count
            = Except.error (GeometryError.ExceedsMaximum axis requested m)) := by
  rw [plan_of_wellFormed _ _ _ _ _ _ _ hwf, if_neg]
  · split
    · exact Or.inl ⟨_, _, rfl⟩
    · exact Or.inr ⟨_, _, _, rfl⟩
  · rw [List.all_eq_true]
    intro hall
    obtain ⟨i, hi, hlt⟩ := hout
    have h1 := hall i (List.mem_range.mpr hi)
    rw [requiredShape_getD _ _ _ _ _ _ hi] at h1
    have h2 := of_decide_eq_true h1
    omega

theorem write_frame {Handle Elem : Type} (B : Backend Handle Elem)
    (arr : ExtensibleArray Handle) (buffer : List Elem) (start block : List Nat)
    (stride count : Option (List Nat)) :
    (write B arr buffer start block stride count).2.maxShape = arr.maxShape
      ∧ (write B arr buffer start block stride count).2.chunkShape = arr.chunkShape
      ∧ ((write B arr buffer start block stride count).2.currentShape = arr.currentShape
        ∨ ∃ p, plan arr.currentShape arr.maxShape arr.chunkShape start block stride count
              = Except.ok p
            ∧ p.extendTo = some (write B arr buffer start block stride count).2.currentShape) := by
  unfold write
  split
  · exact ⟨rfl, rfl, Or.inl rfl⟩
  · rename_i p hp
    split
    · split
      · exact ⟨rfl, rfl, Or.inl rfl⟩
      · exact ⟨rfl, rfl, Or.inl rfl⟩
    · rename_i newShape hext
      split
      · exact ⟨rfl, rfl, Or.inl rfl⟩
      · split
        · exact ⟨rfl, rfl, Or.inr ⟨p, hp, hext⟩⟩
        · exact ⟨rfl, rfl, Or.inr ⟨p, hp, hext⟩⟩

/-- One write keeps the extent invariant, the maximum shape, the chunk shape
and the rank. -/
theorem write_preserves {Handle Elem : Type} (B : Backend Handle Elem)
    (arr : ExtensibleArray Handle) (buffer : List Elem) (start block : List Nat)
    (stride count : Option (List Nat))
    (hinv : ExtentInvariant arr.currentShape arr.maxShape) :
    ExtentInvariant (write B arr buffer start block stride count).2.currentShape
        (write B arr buffer start block stride count).2.maxShape
      ∧ (write B arr buffer start block stride count).2.maxShape = arr.maxShape
      ∧ (write B arr buffer start block stride count).2.chunkShape = arr.chunkShape
      ∧ (write B arr buffer start block stride count).2.currentShape.length
          = arr.currentShape.length := by
  obtain ⟨hmax, hchunk, hcur⟩ := write_frame B arr buffer start block stride count
  refine ⟨?_, hmax, hchunk, ?_⟩
  · rw [hmax]
    rcases hcur with h | ⟨p, hp, hext⟩
    · rw [h]
      exact hinv
    · obtain ⟨hshape, hbound⟩ := plan_ok_extend_bound _ _ _ _ _ _ _ p _ hp hext
      rw [hshape]
      intro i hi m hm
      have hi1 : i < arr.currentShape.length := by
        simp [requiredShape_length] at hi
        exact hi
      rw [zipWith_max_getD _ _ _ hi1 (by rw [requiredShape_length]; exact hi1),
        requiredShape_getD _ _ _ _ _ _ hi1]
      exact Nat.max_le.mpr ⟨hinv i hi1 m hm, hbound i hi1 m hm⟩
  · rcases hcur with h | ⟨p, hp, hext⟩
    · rw [h]
    · obtain ⟨hshape, _⟩ := plan_ok_extend_bound _ _ _ _ _ _ _ p _ hp hext
      rw [hshape]
      simp [requiredShape_length]

theorem applyOp_preserves {Handle Elem : Type} (B : Backend Handle Elem)
    (arr : ExtensibleArray Handle) (op : ArrayOp Elem)
    (hinv : ExtentInvariant arr.currentShape arr.maxShape) :
    ExtentInvariant (applyOp B arr op).currentShape (applyOp B arr op).maxShape
      ∧ (applyOp B arr op).maxShape = arr.maxShape
      ∧ (applyOp B arr op).chunkShape = arr.chunkShape
      ∧ (applyOp B arr op).currentShape.length = arr.currentShape.length := by
  cases op with
  | write buffer start block stride count =>
    exact write_preserves B arr buffer start block stride count hinv
  | read start block stride count =>
    simp only [applyOp, read_frame]
    exact ⟨hinv, trivial, trivial, trivial⟩

theorem runOps_preserves {Handle Elem : Type} (B : Backend Handle Elem)
    (ops : List (ArrayOp Elem)) (arr : ExtensibleArray Handle)
    (hinv : ExtentInvariant arr.currentShape arr.maxShape) :
    ExtentInvariant (runOps B arr ops).currentShape (runOps B arr ops).maxShape
      ∧ (runOps B arr ops).maxShape = arr.maxShape
      ∧ (runOps B arr ops).chunkShape = arr.chunkShape
      ∧ (runOps B arr ops).currentShape.length = arr.currentShape.length := by
  induction ops generalizing arr with
  | nil => exact ⟨hinv, rfl, rfl, rfl⟩
  | cons op rest ih =>
    obtain ⟨h1, h2, h3, h4⟩ := applyOp_preserves B arr op hinv
    obtain ⟨k1, k2, k3, k4⟩ := ih (applyOp B arr op) h1
    simp only [runOps, List.foldl_cons] at k1 k2 k3 k4 ⊢
    exact ⟨k1, k2.trans h2, k3.trans h3, k4.trans h4⟩

theorem ones_prod (rank : Nat) : (ones rank).prod = 1 := by
  simp [ones]

/-! ## Writes, reads and sequences: the claims -/

/-- C11: whenever `plan` returns a geometry error (`RankMismatch`,
`EmptyRegion` or `ExceedsMaximum`) for a write, the write fails with the
`WriteError` that wraps this error, the array after the call is the array
before it (the current shape and the stored content in the backend are
unchanged), and no extend or write call reaches the backend: a backend that
records these calls has recorded nothing new. -/
theorem C11_rejected_write_is_atomic {Handle Elem : Type} (B : Backend Handle Elem)
    (arr : ExtensibleArray Handle) (buffer : List Elem) (start block : List Nat)
    (stride count : Option (List Nat)) (e : GeometryError)
    (he : plan arr.currentShape arr.maxShape arr.chunkShape start block stride count
      = Except.error e) :
    write B arr buffer start block stride count
        = (Except.error (WriteError.Geometry e), arr)
      ∧ (write B arr buffer start block stride count).2.currentShape = arr.currentShape
      ∧ (write B arr buffer start block stride count).2.handle = arr.handle
      ∧ (∀ calls : List BackendCall,
          (write (recordingBackend B)
            (ExtensibleArray.mk (arr.handle, calls) arr.currentShape arr.maxShape
              arr.chunkShape) buffer start block stride count).2.handle
            = (arr.handle, calls)) := by
  have h := write_of_plan_error B arr buffer start block stride count e he
  refine ⟨h, by rw [h], by rw [h], ?_⟩
  intro calls
  rw [write_of_plan_error (recordingBackend B)
    (ExtensibleArray.mk (arr.handle, calls) arr.currentShape arr.maxShape arr.chunkShape)
    buffer start block stride count e he]

/-- Witness of C11: Scenario C, the write at start [95,0] of the block
[10,2048] into an array with maximum [100,2048] is rejected and the array
stays as it was. -/
theorem C11_rejected_write_is_atomic_witness :
    write nullBackend
        (ExtensibleArray.mk () [100, 2048] [some 100, some 2048] [100, 2048]) []
        [95, 0] [10, 2048] none none
      = (Except.error (WriteError.Geometry (GeometryError.ExceedsMaximum 0 105 100)),
          ExtensibleArray.mk () [100, 2048] [some 100, some 2048] [100, 2048]) :=
  (C11_rejected_write_is_atomic nullBackend
    (ExtensibleArray.mk () [100, 2048] [some 100, some 2048] [100, 2048]) []
    [95, 0] [10, 2048] none none (GeometryError.ExceedsMaximum 0 105 100)
    (by decide)).1

/-- C12: `read` never changes the array, so never the current shape, whether
it succeeds or fails; and a read of a well-formed request whose required shape
exceeds the current shape on some axis fails with `OutOfRange`: the dataset
does not grow. -/
theorem C12_read_never_changes_shape {Handle Elem : Type} (B : Backend Handle Elem)
    (arr : ExtensibleArray Handle) (start block : List Nat)
    (stride count : Option (List Nat)) :
    (read B arr start block stride count).2 = arr
      ∧ (read B arr start block stride count).2.currentShape = arr.currentShape
      ∧ (WellFormed arr.currentShape arr.maxShape arr.chunkShape start block stride count →
          (∃ i, i < arr.currentShape.length ∧ arr.currentShape.getD i 0 <
            requiredAt start block (stride.getD (ones arr.currentShape.length))
              (count.getD (ones arr.currentShape.length)) i) →
          (read B arr start block stride count).1 = Except.error ReadError.OutOfRange) := by
  refine ⟨read_frame B arr start block stride count,
    by rw [read_frame B arr start block stride count], ?_⟩
  intro hwf hout
  rcases plan_of_not_fit _ _ _ _ _ _ _ hwf hout with ⟨d, s, hp⟩ | ⟨a, r, m, hp⟩
  · unfold read
    rw [hp]
  · unfold read
    rw [hp]

/-- Witness of C12: reading rows 10..19 of an array of shape [10,2048] whose
axis 0 is unbounded fails with `OutOfRange`. -/
theorem C12_read_never_changes_shape_witness :
    (read nullBackend (ExtensibleArray.mk () [10, 2048] [none, some 2048] [100, 2048])
        [10, 0] [10, 2048] none none).1 = Except.error ReadError.OutOfRange :=
  (C12_read_never_changes_shape nullBackend
    (ExtensibleArray.mk () [10, 2048] [none, some 2048] [100, 2048])
    [10, 0] [10, 2048] none none).2.2 (by decide) ⟨0, by decide, by decide⟩

/-- C13: for an array whose current shape is at most the maximum shape on
every bounded axis, every sequence of writes and reads, successful or failed,
on every backend, leaves the current shape at most the maximum on every
bounded axis; the chunk shape, the maximum shape and the rank never change. -/
theorem C13_extent_invariant_preserved {Handle Elem : Type} (B : Backend Handle Elem)
    (arr : ExtensibleArray Handle) (ops : List (ArrayOp Elem))
    (hinv : ExtentInvariant arr.currentShape arr.maxShape) :
    ExtentInvariant (runOps B arr ops).currentShape (runOps B arr ops).maxShape
      ∧ (∀ i, i < (runOps B arr ops).currentShape.length →
          ∀ m, arr.maxShape.getD i none = some m →
            (runOps B arr ops).currentShape.getD i 0 ≤ m)
      ∧ (runOps B arr ops).chunkShape = arr.chunkShape
      ∧ (runOps B arr ops).maxShape = arr.maxShape
      ∧ (runOps B arr ops).currentShape.length = arr.currentShape.length := by
  obtain ⟨h1, h2, h3, h4⟩ := runOps_preserves B ops arr hinv
  refine ⟨h1, ?_, h3, h2, h4⟩
  intro i hi m hm
  rw [← h2] at hm
  exact h1 i hi m hm

/-- Witness of C13: on an array of shape [10,2048] with maximum [100,2048], a
write that extends, a write that is rejected and a read leave the shape
[20,2048], within the maximum. -/
theorem C13_extent_invariant_preserved_witness :
    ExtentInvariant
      (runOps nullBackend (ExtensibleArray.mk () [10, 2048] [some 100, some 2048] [100, 2048])
        [ArrayOp.write [] [10, 0] [10, 2048] none none,
         ArrayOp.write [] [95, 0] [10, 2048] none none,
         ArrayOp.read [0, 0] [20, 2048] none none]).currentShape
      (runOps nullBackend (ExtensibleArray.mk () [10, 2048] [some 100, some 2048] [100, 2048])
        [ArrayOp.write [] [10, 0] [10, 2048] none none,
         ArrayOp.write [] [95, 0] [10, 2048] none none,
         ArrayOp.read [0, 0] [20, 2048] none none]).maxShape :=
  (C13_extent_invariant_preserved nullBackend
    (ExtensibleArray.mk () [10, 2048] [some 100, some 2048] [100, 2048])
    [ArrayOp.write [] [10, 0] [10, 2048] none none,
     ArrayOp.write [] [95, 0] [10, 2048] none none,
     ArrayOp.read [0, 0] [20, 2048] none none] (by decide)).1

theorem flatMap_length_const {α β : Type} (f : α → List β) (k : Nat) (xs : List α)
    (h : ∀ x ∈ xs, (f x).length = k) : (xs.flatMap f).length = xs.length * k := by
  induction xs with
  | nil => simp
  | cons x rest ih =>
    simp only [List.flatMap_cons, List.length_append, List.length_cons]
    rw [h x (List.mem_cons_self _ _), ih (fun y hy => h y (List.mem_cons_of_mem _ hy))]
    rw [Nat.succ_mul]
    omega

theorem axisIndices_length (offset block stride count : Nat) :
    (axisIndices offset block stride count).length = count * block := by
  unfold axisIndices
  rw [flatMap_length_const _ block]
  · simp
  · intro x _
    simp

/-- A region of equal ranks selects `product(block) * product(count)` cells. -/
theorem selectCells_length (os : List Nat) :
    ∀ bs ss cs : List Nat, bs.length = os.length → ss.length = os.length →
      cs.length = os.length →
      (selectCells os bs ss cs).length = bs.prod * cs.prod := by
  induction os with
  | nil =>
    intro bs ss cs hb hs hc
    have e1 : bs = [] := List.length_eq_zero.mp hb
    have e2 : cs = [] := List.length_eq_zero.mp hc
    subst e1
    subst e2
    simp [selectCells]
  | cons o rest ih =>
    intro bs ss cs hb hs hc
    cases bs with
    | nil => simp at hb
    | cons b bs1 =>
      cases ss with
      | nil => simp at hs
      | cons s ss1 =>
        cases cs with
        | nil => simp at hc
        | cons c cs1 =>
          simp only [List.length_cons, Nat.add_right_cancel_iff] at hb hs hc
          have hrest := ih bs1 ss1 cs1 hb hs hc
          simp only [selectCells, List.prod_cons]
          rw [flatMap_length_const _ (bs1.prod * cs1.prod)]
          · rw [axisIndices_length]
            ring
          · intro i _
            rw [List.length_map, hrest]

/-- The region which a successful `plan` describes selects
`product(block) * product(count)` cells. -/
theorem plan_ok_cells (currentShape : List Nat) (maxShape : List (Option Nat))
    (chunkShape start block : List Nat) (stride count : Option (List Nat))
    (p : Plan)
    (hp : plan currentShape maxShape chunkShape start block stride count = Except.ok p) :
    p.descriptor.cells
        = selectCells start block (stride.getD (ones currentShape.length))
            (count.getD (ones currentShape.length))
      ∧ p.descriptor.cells.length
        = block.prod * (count.getD (ones currentShape.length)).prod := by
  obtain ⟨hd, _, _, hr⟩ := plan_ok_descriptor _ _ _ _ _ _ _ p hp
  obtain ⟨_, _, h3, h4, h5, h6⟩ := hr
  rw [hd]
  refine ⟨rfl, ?_⟩
  simp only [Region.cells]
  exact selectCells_length start block _ _ (by rw [h4, h3]) (by rw [h5, h3]) (by rw [h6, h3])

/-- A successful `write` has handed the buffer and the descriptor of `plan`
to `backendWriteRegion` of the backend. -/
theorem write_ok_transfer {Handle Elem : Type} (B : Backend Handle Elem)
    (arr arr1 : ExtensibleArray Handle) (buffer : List Elem) (start block : List Nat)
    (stride count : Option (List Nat))
    (hw : write B arr buffer start block stride count = (Except.ok (), arr1)) :
    ∃ p h, plan arr.currentShape arr.maxShape arr.chunkShape start block stride count
        = Except.ok p
      ∧ B.backendWriteRegion h p.descriptor buffer = some arr1.handle
      ∧ (h = arr.handle ∨ ∃ newShape, B.backendExtend arr.handle newShape = some h) := by
  unfold write at hw
  split at hw
  · cases hw
  · rename_i p hp
    split at hw
    · split at hw
      · cases hw
      · rename_i h hh
        cases hw
        exact ⟨p, arr.handle, hp, hh, Or.inl rfl⟩
    · rename_i newShape _
      split at hw
      · cases hw
      · rename_i h1 hext
        split at hw
        · cases hw
        · rename_i h2 hh
          cases hw
          exact ⟨p, h1, hp, hh, Or.inr ⟨newShape, hext⟩⟩

/-- On the memory backend a `write` whose geometry `plan` accepts succeeds
exactly when the buffer holds one element per cell of the region. -/
theorem write_memoryBackend_ok_iff {Elem : Type} (fill : Elem)
    (m : ExtensibleArray (List (List Nat × Elem))) (buffer : List Elem)
    (start block : List Nat) (stride count : Option (List Nat)) (p : Plan)
    (hp : plan m.currentShape m.maxShape m.chunkShape start block stride count
        = Except.ok p) :
    (write (memoryBackend fill) m buffer start block stride count).1 = Except.ok ()
      ↔ buffer.length = p.descriptor.cells.length := by
  unfold write
  rw [hp]
  simp only [memoryBackend]
  cases p.extendTo with
  | none =>
    simp only []
    split
    · rename_i hh
      split at hh
      · cases hh
      · rename_i hne
        simp [hne]
    · rename_i h hh
      split at hh
      · rename_i he
        simp [he]
      · cases hh
  | some newShape =>
    simp only []
    split
    · rename_i hh
      split at hh
      · cases hh
      · rename_i hne
        simp [hne]
    · rename_i h hh
      split at hh
      · rename_i he
        simp [he]
      · cases hh

/-- C14: the number of elements a `write` transfers is `product(block) *
product(count)`.  A successful `write` on any backend has handed its buffer
to `backendWriteRegion` together with the region of the request, and that
region has `product(block) * product(count)` cells, where a count that is
left out counts as one on every axis: the number of cells is then the product
of the block sizes, which is `nofDatapoints` with an empty count (2048 for the
block [1,2048]).  On the memory backend, which moves one element of the buffer
into each cell, a `write` with valid geometry succeeds exactly when the buffer
holds `product(block) * product(count)` elements, and it then stores that many
elements, one for each cell of the region in order. -/
theorem C14_write_transfers_block_times_count {Handle Elem : Type}
    (B : Backend Handle Elem) (arr arr1 : ExtensibleArray Handle)
    (buffer : List Elem) (start block : List Nat) (stride count : Option (List Nat))
    (hw : write B arr buffer start block stride count = (Except.ok (), arr1)) :
    (∃ h d, B.backendWriteRegion h d buffer = some arr1.handle
        ∧ d = Region.mk start block (stride.getD (ones arr.currentShape.length))
            (count.getD (ones arr.currentShape.length))
        ∧ d.cells.length
            = block.prod * (count.getD (ones arr.currentShape.length)).prod
        ∧ d.cells.length = transferCount d
        ∧ (count = none →
            d.cells.length = block.prod ∧ d.cells.length = nofDatapoints [] block)
        ∧ (∀ cnt, count = some cnt → cnt ≠ [] →
            d.cells.length = nofDatapoints cnt block))
      ∧ (∀ (fill : Elem) (m : ExtensibleArray (List (List Nat × Elem)))
          (elements : List Elem),
          (∃ p, plan m.currentShape m.maxShape m.chunkShape start block stride count
            = Except.ok p) →
          ((write (memoryBackend fill) m elements start block stride count).1
              = Except.ok ()
            ↔ elements.length
                = block.prod * (count.getD (ones m.currentShape.length)).prod))
      ∧ (∀ (fill : Elem) (m m1 : ExtensibleArray (List (List Nat × Elem)))
          (elements : List Elem),
          write (memoryBackend fill) m elements start block stride count
            = (Except.ok (), m1) →
          m1.handle = m.handle ++ List.zip
              (selectCells start block (stride.getD (ones m.currentShape.length))
                (count.getD (ones m.currentShape.length))) elements
            ∧ m1.handle.length = m.handle.length
                + block.prod * (count.getD (ones m.currentShape.length)).prod)
      ∧ (∀ blk : List Nat, nofDatapoints [] blk = blk.prod)
      ∧ nofDatapoints [] [1, 2048] = 2048 := by
  refine ⟨?_, ?_, ?_, fun _ => rfl, by decide⟩
  · obtain ⟨p, h, hp, hh, _⟩ :=
      write_ok_transfer B arr arr1 buffer start block stride count hw
    obtain ⟨hd, _, _, _⟩ := plan_ok_descriptor _ _ _ _ _ _ _ p hp
    obtain ⟨_, hlen⟩ := plan_ok_cells _ _ _ _ _ _ _ p hp
    refine ⟨h, p.descriptor, hh, hd, hlen, ?_, ?_, ?_⟩
    · rw [hlen, hd]
      rfl
    · intro hnone
      rw [hlen, hnone]
      simp [nofDatapoints, ones_prod]
    · intro cnt hsome hne
      rw [hlen, hsome]
      cases cnt with
      | nil => exact absurd rfl hne
      | cons c cs => rfl
  · rintro fill m elements ⟨p, hp⟩
    rw [write_memoryBackend_ok_iff fill m elements start block stride count p hp,
      (plan_ok_cells _ _ _ _ _ _ _ p hp).2]
  · intro fill m m1 elements hm
    obtain ⟨p, h, hp, hh, hext⟩ :=
      write_ok_transfer (memoryBackend fill) m m1 elements start block stride count hm
    obtain ⟨hcells, hlen⟩ := plan_ok_cells _ _ _ _ _ _ _ p hp
    have hh0 : h = m.handle := by
      rcases hext with e | ⟨newShape, e⟩
      · exact e
      · simp only [memoryBackend, Option.some.injEq] at e
        exact e.symm
    simp only [memoryBackend] at hh
    split at hh
    · rename_i hfit
      have e := Option.some.inj hh
      rw [← e, hh0, hcells]
      refine ⟨rfl, ?_⟩
      rw [List.length_append, List.length_zip, ← hcells, ← hfit, Nat.min_self, hfit, hlen]
    · cases hh

/-- Witness of C14 on the memory backend: a block of two rows of three
elements is written into an empty dataset of shape [4,3]; the buffer of six
elements is stored, one element per cell. -/
theorem C14_write_transfers_block_times_count_witness :
    ∃ h d, (memoryBackend 0).backendWriteRegion h d [1, 2, 3, 4, 5, 6]
        = some [([0, 0], 1), ([0, 1], 2), ([0, 2], 3), ([1, 0], 4), ([1, 1], 5),
            ([1, 2], 6)]
      ∧ d = Region.mk [0, 0] [2, 3] [1, 1] [1, 1]
      ∧ d.cells.length = 6
      ∧ nofDatapoints [] [2, 3] = 6 := by
  obtain ⟨⟨h, d, h1, h2, h3, _, h5, _⟩, _⟩ :=
    C14_write_transfers_block_times_count (memoryBackend (0 : Nat))
      (ExtensibleArray.mk [] [4, 3] [some 100, some 3] [4, 3])
      (ExtensibleArray.mk
        [([0, 0], 1), ([0, 1], 2), ([0, 2], 3), ([1, 0], 4), ([1, 1], 5), ([1, 2], 6)]
        [4, 3] [some 100, some 3] [4, 3])
      [1, 2, 3, 4, 5, 6] [0, 0] [2, 3] none none rfl
  refine ⟨h, d, h1, h2, ?_, ?_⟩
  · rw [h3]
    rfl
  · rw [← (h5 rfl).2, h3]
    rfl

/-! ## Facts about `dalGroup` -/

theorem close_of_zero (g : dalGroup) (w : H5CloseLog) (h : g.group_id = 0) :
    g.close w = (Status.SUCCESS, g, w) := by
  simp [dalGroup.close, h]

theorem destroy_of_zero (g : dalGroup) (w : H5CloseLog) (h : g.group_id = 0) :
    g.destroy w = (g, w) := by
  simp [dalGroup.destroy, h]

theorem closeRepeatedly_of_zero (n : Nat) (g : dalGroup) (w : H5CloseLog)
    (h : g.group_id = 0) : closeRepeatedly n g w = (g, w) := by
  induction n with
  | zero => rfl
  | succ k ih =>
    simp only [closeRepeatedly, close_of_zero g w h]
    exact ih

theorem successfulCloses_append (xs ys : List (Int × Int)) :
    successfulCloses (xs ++ ys) = successfulCloses xs + successfulCloses ys := by
  simp [successfulCloses]

/-- One `close ()` on a group with a handle makes exactly one call of
`H5Gclose` on that handle; a failure keeps the group, a success resets
`group_id`. -/
theorem close_of_open (g : dalGroup) (w : H5CloseLog) (h : g.group_id ≠ 0) :
    (g.close w).2.2.calls
        = w.calls ++ [(g.group_id, w.answer w.calls.length g.group_id)]
      ∧ (g.close w).2.2.answer = w.answer
      ∧ (w.answer w.calls.length g.group_id < 0 →
          g.close w = (Status.FAIL, g, (H5Gclose w g.group_id).2))
      ∧ (0 ≤ w.answer w.calls.length g.group_id →
          (g.close w).1 = Status.SUCCESS ∧ (g.close w).2.1.group_id = 0) := by
  have h0 : (0 : Int) ≠ g.group_id := fun e => h e.symm
  by_cases ha : w.answer w.calls.length g.group_id < 0
  · have hr : (H5Gclose w g.group_id).1 < 0 := ha
    have hc : g.close w = (Status.FAIL, g, (H5Gclose w g.group_id).2) := by
      simp only [dalGroup.close, if_pos h0, if_pos hr]
    rw [hc]
    refine ⟨rfl, rfl, fun _ => rfl, fun hge => ?_⟩
    omega
  · have hr : ¬ (H5Gclose w g.group_id).1 < 0 := ha
    have hc : g.close w
        = (Status.SUCCESS, { g with group_id := 0 }, (H5Gclose w g.group_id).2) := by
      simp only [dalGroup.close, if_pos h0, if_neg hr]
    rw [hc]
    refine ⟨rfl, rfl, fun hlt => ?_, fun _ => ⟨rfl, rfl⟩⟩
    omega

/-- After any number of `close ()` calls: the calls made were all on the
handle of the group, and either no call succeeded yet and the group still
holds its handle, or `group_id` is 0 and at most one call succeeded. -/
theorem closeRepeatedly_spec (n : Nat) (g : dalGroup) (w : H5CloseLog) :
    ∃ new, (closeRepeatedly n g w).2.calls = w.calls ++ new
      ∧ (∀ c ∈ new, c.1 = g.group_id)
      ∧ (((closeRepeatedly n g w).1.group_id = g.group_id ∧ successfulCloses new = 0)
        ∨ ((closeRepeatedly n g w).1.group_id = 0 ∧ successfulCloses new ≤ 1)) := by
  induction n generalizing g w with
  | zero =>
    exact ⟨[], by simp [closeRepeatedly], by simp, Or.inl ⟨rfl, rfl⟩⟩
  | succ k ih =>
    by_cases h : g.group_id = 0
    · rw [closeRepeatedly_of_zero (k + 1) g w h]
      exact ⟨[], by simp, by simp, Or.inl ⟨rfl, rfl⟩⟩
    · obtain ⟨hcalls, _, hfail, hsucc⟩ := close_of_open g w h
      simp only [closeRepeatedly]
      by_cases ha : w.answer w.calls.length g.group_id < 0
      · have hc := hfail ha
        obtain ⟨new, e1, e2, e3⟩ := ih g (H5Gclose w g.group_id).2
        rw [hc]
        simp only []
        refine ⟨(g.group_id, w.answer w.calls.length g.group_id) :: new, ?_, ?_, ?_⟩
        · rw [e1]
          simp [H5Gclose]
        · intro c hc1
          rcases List.mem_cons.mp hc1 with hc2 | hc2
          · rw [hc2]
          · exact e2 c hc2
        · have hs : successfulCloses
              ((g.group_id, w.answer w.calls.length g.group_id) :: new)
              = successfulCloses new := by
            have : ¬ (0 ≤ w.answer w.calls.length g.group_id) := by omega
            simp [successfulCloses, this]
          rw [hs]
          exact e3
      · obtain ⟨_, hz⟩ := hsucc (by omega)
        rw [closeRepeatedly_of_zero k _ _ hz]
        simp only []
        refine ⟨[(g.group_id, w.answer w.calls.length g.group_id)], hcalls, ?_, Or.inr ⟨hz, ?_⟩⟩
        · intro c hc1
          rw [List.mem_singleton.mp hc1]
        · exact List.length_filter_le _ _

theorem closeThenDestroy_spec (n : Nat) (g : dalGroup) (w : H5CloseLog) :
    ∃ new, (closeThenDestroy n g w).calls = w.calls ++ new
      ∧ (∀ c ∈ new, c.1 = g.group_id)
      ∧ successfulCloses new ≤ 1 := by
  obtain ⟨new, e1, e2, e3⟩ := closeRepeatedly_spec n g w
  unfold closeThenDestroy
  by_cases hz : (closeRepeatedly n g w).1.group_id = 0
  · rw [destroy_of_zero _ _ hz]
    refine ⟨new, e1, e2, ?_⟩
    rcases e3 with ⟨_, h0⟩ | ⟨_, h1⟩
    · omega
    · exact h1
  · have h0 : (0 : Int) ≠ (closeRepeatedly n g w).1.group_id := fun e => hz e.symm
    rcases e3 with ⟨hid, hs⟩ | ⟨hid, _⟩
    · simp only [dalGroup.destroy, if_pos h0, H5Gclose]
      refine ⟨new ++ [((closeRepeatedly n g w).1.group_id,
        (closeRepeatedly n g w).2.answer (closeRepeatedly n g w).2.calls.length
          (closeRepeatedly n g w).1.group_id)], ?_, ?_, ?_⟩
      · rw [e1, List.append_assoc]
      · intro c hc
        rcases List.mem_append.mp hc with hc1 | hc1
        · exact e2 c hc1
        · rw [List.mem_singleton.mp hc1]
          exact hid
      · rw [successfulCloses_append, hs]
        have : successfulCloses [((closeRepeatedly n g w).1.group_id,
            (closeRepeatedly n g w).2.answer (closeRepeatedly n g w).2.calls.length
              (closeRepeatedly n g w).1.group_id)] ≤ 1 := List.length_filter_le _ _
        omega
    · exact absurd hid hz

/-- On a backend where closing succeeds, a group with a handle makes exactly
one call of `H5Gclose`, whatever the number of `close ()` calls before its
destruction. -/
theorem closeThenDestroy_of_success (n : Nat) (g : dalGroup) (w : H5CloseLog)
    (hopen : g.group_id ≠ 0) (hok : 0 ≤ w.answer w.calls.length g.group_id) :
    (closeThenDestroy n g w).calls
      = w.calls ++ [(g.group_id, w.answer w.calls.length g.group_id)] := by
  have h0 : (0 : Int) ≠ g.group_id := fun e => hopen e.symm
  cases n with
  | zero =>
    simp only [closeThenDestroy, closeRepeatedly, dalGroup.destroy, if_pos h0, H5Gclose]
  | succ k =>
    obtain ⟨hcalls, _, _, hsucc⟩ := close_of_open g w hopen
    obtain ⟨_, hz⟩ := hsucc hok
    simp only [closeThenDestroy, closeRepeatedly]
    rw [closeRepeatedly_of_zero k _ _ hz, destroy_of_zero _ _ hz]
    exact hcalls

theorem string_length_pos_iff (s : String) : s.length > 0 ↔ s ≠ "" := by
  cases s with
  | mk data =>
    cases data with
    | nil => simp [String.length]
    | cons c cs =>
      simp only [String.length, List.length_cons, gt_iff_lt, Nat.zero_lt_succ, true_iff]
      intro h
      have := congrArg String.data h
      simp at this

/-! ## Groups: the claims on closing and naming -/

/-- C18: over any number of `close ()` calls followed by the destruction of a
`dalGroup`, and whatever the backend answers, every call of `H5Gclose` is made
on the handle of the group and at most one of them succeeds; a successful
`close ()` resets `group_id` to 0, and `close ()` and the destructor make no
call when `group_id` is 0.  When the first call of `H5Gclose` succeeds, it is
the only call. -/
theorem C18_handle_closed_at_most_once (g : dalGroup) (w : H5CloseLog) (n : Nat)
    (hopen : g.group_id ≠ 0) :
    (∃ new, (closeThenDestroy n g w).calls = w.calls ++ new
        ∧ (∀ c ∈ new, c.1 = g.group_id)
        ∧ successfulCloses new ≤ 1)
      ∧ (0 ≤ w.answer w.calls.length g.group_id →
          (g.close w).1 = Status.SUCCESS ∧ (g.close w).2.1.group_id = 0)
      ∧ (0 ≤ w.answer w.calls.length g.group_id →
          (closeThenDestroy n g w).calls
            = w.calls ++ [(g.group_id, w.answer w.calls.length g.group_id)])
      ∧ (∀ (g0 : dalGroup) (w0 : H5CloseLog), g0.group_id = 0 →
          (g0.close w0).2.2 = w0 ∧ (g0.destroy w0).2 = w0) := by
  refine ⟨closeThenDestroy_spec n g w, (close_of_open g w hopen).2.2.2,
    closeThenDestroy_of_success n g w hopen, ?_⟩
  intro g0 w0 h0
  rw [close_of_zero g0 w0 h0, destroy_of_zero g0 w0 h0]
  exact ⟨rfl, rfl⟩

/-- Witness of C18: a group with handle 5, a backend on which the first
`H5Gclose` fails and the later ones succeed, three calls of `close ()` and the
destruction: two calls reach the backend, one of them succeeds. -/
theorem C18_handle_closed_at_most_once_witness :
    ∃ new, (closeThenDestroy 3 (dalGroup.mk 0 "g" "/g" 0 0 1 5 0)
          (H5CloseLog.mk (fun k _ => if k = 0 then -1 else 0) [])).calls
        = ([] : List (Int × Int)) ++ new
      ∧ (∀ c ∈ new, c.1 = 5)
      ∧ successfulCloses new ≤ 1 :=
  (C18_handle_closed_at_most_once (dalGroup.mk 0 "g" "/g" 0 0 1 5 0)
    (H5CloseLog.mk (fun k _ => if k = 0 then -1 else 0) []) 3 (by decide)).1

/-- C19: `setName (gname)` with a name that is not empty returns `SUCCESS`,
makes `getName ()` return `gname` and leaves every other member as it was;
with the empty name it returns `FAIL` and leaves the group, its name included,
unchanged. -/
theorem C19_setName (g : dalGroup) (gname : String) :
    (gname ≠ "" →
        (g.setName gname).1 = Status.SUCCESS
          ∧ (g.setName gname).2.getName = gname
          ∧ (g.setName gname).2 = { g with groupname := gname })
      ∧ (g.setName "").1 = Status.FAIL
      ∧ (g.setName "").2 = g
      ∧ (g.setName "").2.getName = g.getName := by
  refine ⟨?_, ?_, ?_, ?_⟩
  · intro hne
    have hpos : gname.length > 0 := (string_length_pos_iff gname).mpr hne
    simp only [dalGroup.setName, if_pos hpos, dalGroup.getName]
    exact ⟨trivial, trivial, trivial⟩
  · rfl
  · rfl
  · rfl

/-- Witness of C19: renaming the group "g" to "station". -/
theorem C19_setName_witness :
    ((dalGroup.mk 0 "g" "/g" 0 0 1 5 0).setName "station").1 = Status.SUCCESS
      ∧ ((dalGroup.mk 0 "g" "/g" 0 0 1 5 0).setName "station").2.getName = "station"
      ∧ ((dalGroup.mk 0 "g" "/g" 0 0 1 5 0).setName "station").2
          = dalGroup.mk 0 "station" "/g" 0 0 1 5 0 :=
  (C19_setName (dalGroup.mk 0 "g" "/g" 0 0 1 5 0) "station").1 (by decide)

/-! ## Facts about creating subgroups and listing members -/

theorem H5Gcreate_of_used (f : H5File) (loc_id : Int) (name : String)
    (hused : ∃ kind, (name, kind) ∈ f.children loc_id) :
    H5Gcreate f loc_id name = (-1, f) := by
  obtain ⟨kind, hk⟩ := hused
  have hany : (f.children loc_id).any (fun child => child.1 == name) = true := by
    rw [List.any_eq_true]
    exact ⟨(name, kind), hk, by simp⟩
  simp only [H5Gcreate, hany, if_true]

/-- Group creation keeps the names of the children of every location free of
duplicates. -/
theorem H5Gcreate_nodup (f : H5File) (loc_id : Int) (name : String) (loc : Int)
    (h : ((f.children loc).map Prod.fst).Nodup) :
    (((H5Gcreate f loc_id name).2.children loc).map Prod.fst).Nodup := by
  unfold H5Gcreate
  split
  · exact h
  · rename_i hany
    simp only []
    split
    · rename_i hloc
      subst hloc
      rw [List.map_append, List.nodup_append]
      refine ⟨h, by simp, ?_⟩
      intro x hx hx1
      simp only [List.map_cons, List.map_nil, List.mem_singleton] at hx1
      subst hx1
      apply hany
      rw [List.any_eq_true]
      obtain ⟨child, hc, hcx⟩ := List.mem_map.mp hx
      exact ⟨child, hc, by simp [hcx]⟩
    · exact h

theorem H5Giterate_file_info (members : List H5Member) (opdata : List String)
    (hinfo : ∀ m ∈ members, m.objinfo = 0) :
    H5Giterate dalGroup_file_info members opdata = (0, opdata ++ datasetNames members) := by
  induction members generalizing opdata with
  | nil => simp [H5Giterate, datasetNames]
  | cons m rest ih =>
    have hm : m.objinfo = 0 := hinfo m (List.mem_cons_self _ _)
    have hrest : ∀ x ∈ rest, x.objinfo = 0 := fun x hx => hinfo x (List.mem_cons_of_mem _ hx)
    have hnot : ¬ m.objinfo > 0 := by omega
    cases hty : m.type <;>
      simp [H5Giterate, dalGroup_file_info, hnot, hty, ih _ hrest, datasetNames,
        List.filter_cons]

theorem datasetNames_nodup (members : List H5Member)
    (h : (members.map H5Member.name).Nodup) : (datasetNames members).Nodup := by
  unfold datasetNames
  exact List.Nodup.sublist (List.Sublist.map _ (List.filter_sublist _)) h

/-! ## Groups: the claims on subgroups and members -/

/-- C15, counterexample: the example group already has the child "a", and
`createGroup "a"` on it does not fail: it hands back a `dalGroup` object, the
one whose `group_id` is the failure code -1 of the backend. -/
theorem C15_createGroup_hands_back_object :
    ("a", H5G_obj_t.H5G_GROUP) ∈ exampleFile.children exampleGroup.group_id
      ∧ (exampleGroup.createGroup exampleGroup exampleFile "a").1
          = some (dalGroup.mk 0 "" "" 0 0 1 (-1) 0)
      ∧ (exampleGroup.createGroup exampleGroup exampleFile "a").1 ≠ none := by
  decide

/-- C15, amended: `createGroup (gname)` on a group that already has a child
called `gname` has no error result; it hands back a `dalGroup` object without
a usable handle, its `group_id` being the negative failure code of the
backend, and the file is unchanged.  For every name, in use or not, the names
of the children of every location stay free of duplicates. -/
theorem C15_createGroup_name_in_use (g indet : dalGroup) (f : H5File) (gname : String)
    (hused : ∃ kind, (gname, kind) ∈ f.children g.group_id) :
    (∃ lg, (g.createGroup indet f gname).1 = some lg ∧ lg.group_id < 0)
      ∧ (g.createGroup indet f gname).2.children = f.children
      ∧ (g.createGroup indet f gname).2.nextId = f.nextId
      ∧ (∀ (anyName : String) (loc : Int),
          ((f.children loc).map Prod.fst).Nodup →
          (((g.createGroup indet f anyName).2.children loc).map Prod.fst).Nodup) := by
  have hc := H5Gcreate_of_used f g.group_id gname hused
  refine ⟨⟨_, rfl, ?_⟩, ?_, ?_, ?_⟩
  · simp only [dalGroup.subgroup, hc]
    decide
  · simp only [dalGroup.createGroup, dalGroup.subgroup, hc]
  · simp only [dalGroup.createGroup, dalGroup.subgroup, hc]
  · intro anyName loc hnodup
    exact H5Gcreate_nodup f g.group_id anyName loc hnodup

/-- Witness of the amended C15 on the example group and file. -/
theorem C15_createGroup_name_in_use_witness :
    ∃ lg, (exampleGroup.createGroup exampleGroup exampleFile "a").1 = some lg
      ∧ lg.group_id < 0 :=
  (C15_createGroup_name_in_use exampleGroup exampleGroup exampleFile "a"
    ⟨H5G_obj_t.H5G_GROUP, by decide⟩).1

/-- C16, counterexample: the example group has the members "a" (dataset), "g"
(subgroup) and "b" (dataset); `getMemberNames` returns "a" and "b" and leaves
the subgroup "g" out. -/
theorem C16_getMemberNames_skips_subgroup :
    exampleGroup.getMemberNames (fun _ _ => some exampleMembers) = ["a", "b"]
      ∧ "g" ∈ exampleMembers.map H5Member.name
      ∧ "g" ∉ exampleGroup.getMemberNames (fun _ _ => some exampleMembers) := by
  decide

/-- C16, amended: when the backend finds the group and `H5Gget_objinfo`
succeeds on every member, `getMemberNames` returns the names of the direct
children that are datasets, in the order in which the backend enumerates
them, once for every enumerated dataset (so without repetition when the
backend enumerates every name once); subgroups and named types are not
listed. -/
theorem C16_getMemberNames_lists_datasets (g : dalGroup)
    (lookup : Int → String → Option (List H5Member)) (members : List H5Member)
    (hfound : lookup g.file_id g.groupname = some members)
    (hinfo : ∀ m ∈ members, m.objinfo = 0) :
    g.getMemberNames lookup
        = (members.filter (fun m => m.type == H5G_obj_t.H5G_DATASET)).map H5Member.name
      ∧ (∀ name, name ∈ g.getMemberNames lookup ↔
          ∃ m ∈ members, m.name = name ∧ m.type = H5G_obj_t.H5G_DATASET)
      ∧ ((members.map H5Member.name).Nodup → (g.getMemberNames lookup).Nodup) := by
  have hres : g.getMemberNames lookup = datasetNames members := by
    simp only [dalGroup.getMemberNames, hfound, H5Giterate_file_info members [] hinfo,
      List.nil_append]
  refine ⟨hres, ?_, ?_⟩
  · intro name
    rw [hres]
    simp only [datasetNames, List.mem_map, List.mem_filter, beq_iff_eq]
    constructor
    · rintro ⟨m, ⟨hm, hty⟩, hn⟩
      exact ⟨m, hm, hn, hty⟩
    · rintro ⟨m, hm, hn, hty⟩
      exact ⟨m, ⟨hm, hty⟩, hn⟩
  · intro hnodup
    rw [hres]
    exact datasetNames_nodup members hnodup

/-- Witness of the amended C16 on the example members. -/
theorem C16_getMemberNames_lists_datasets_witness :
    exampleGroup.getMemberNames (fun _ _ => some exampleMembers)
      = (exampleMembers.filter (fun m => m.type == H5G_obj_t.H5G_DATASET)).map
          H5Member.name :=
  (C16_getMemberNames_lists_datasets exampleGroup (fun _ _ => some exampleMembers)
    exampleMembers rfl (by decide)).1

/-! ## Facts about `aggregateAttribute` -/

/-- C20: `verifyFlags (flags, correctFlags)` returns `false` if and only if
`flags` contains `ReadOnly` together with `WriteOnly` or with `ReadWrite`,
whatever `correctFlags` is; every other combination is accepted with `true`,
in particular every combination without `ReadOnly`, such as `WriteOnly`
together with `ReadWrite`. -/
theorem C20_verifyFlags_status (F : FlagValues) (flags : Nat) (correctFlags : Bool) :
    ((verifyFlags F flags correctFlags).1 = false
        ↔ (containsFlag flags F.ReadOnly = true
            ∧ (containsFlag flags F.WriteOnly = true
              ∨ containsFlag flags F.ReadWrite = true)))
      ∧ ((verifyFlags F flags correctFlags).1 = true
        ↔ ¬ (containsFlag flags F.ReadOnly = true
            ∧ (containsFlag flags F.WriteOnly = true
              ∨ containsFlag flags F.ReadWrite = true)))
      ∧ (containsFlag flags F.ReadOnly = false →
          (verifyFlags F flags correctFlags).1 = true)
      ∧ (verifyFlags separateBits (separateBits.WriteOnly ||| separateBits.ReadWrite)
          correctFlags).1 = true
      ∧ (verifyFlags separateBits (separateBits.ReadOnly ||| separateBits.WriteOnly)
          correctFlags).1 = false
      ∧ (verifyFlags separateBits (separateBits.ReadOnly ||| separateBits.ReadWrite)
          correctFlags).1 = false := by
  have key : (verifyFlags F flags correctFlags).1 = false
      ↔ (containsFlag flags F.ReadOnly = true
          ∧ (containsFlag flags F.WriteOnly = true
            ∨ containsFlag flags F.ReadWrite = true)) := by
    unfold verifyFlags
    cases h1 : containsFlag flags F.ReadOnly
    · simp
    · cases h2 : containsFlag flags F.WriteOnly
      · cases h3 : containsFlag flags F.ReadWrite <;> simp [h3]
      · simp only [if_true, true_and, true_or, iff_true]
        split <;> split <;> rfl
  refine ⟨key, ?_, ?_, ?_, ?_, ?_⟩
  · rw [← key]
    cases (verifyFlags F flags correctFlags).1 <;> simp
  · intro h1
    cases hs : (verifyFlags F flags correctFlags).1 with
    | true => rfl
    | false =>
      have := (key.mp hs).1
      rw [h1] at this
      cases this
  · cases correctFlags <;> decide
  · cases correctFlags <;> decide
  · cases correctFlags <;> decide

/-! ## Facts about the I/O mode flags -/

theorem verifyFlags_keeps_flags (F : FlagValues) (flags : Nat) :
    (verifyFlags F flags false).2 = flags := by
  unfold verifyFlags
  cases h1 : containsFlag flags F.ReadOnly
  · simp
  · cases h2 : containsFlag flags F.WriteOnly <;>
      cases h3 : containsFlag flags F.ReadWrite <;> simp [h3]

theorem foldl_append_filter {α β : Type} (p : α → Bool) (g : α → β) (l : List α)
    (acc : List β) :
    l.foldl (fun names entry => if p entry then names ++ [g entry] else names) acc
      = acc ++ (l.filter p).map g := by
  induction l generalizing acc with
  | nil => simp
  | cons x rest ih =>
    simp only [List.foldl_cons, List.filter_cons]
    rw [ih]
    cases hp : p x <;> simp

theorem flagDescriptions_eq (F : FlagValues) (flags : Nat) :
    flagDescriptions F flags
      = ((flagsMap F).filter (fun entry => containsFlag flags entry.1)).map Prod.snd := by
  unfold flagDescriptions
  rw [foldl_append_filter (fun entry => containsFlag flags entry.1) Prod.snd]
  simp

theorem mem_mapAssign (m : List (Nat × String)) (key : Nat) (name : String)
    (e : Nat × String) (h : e ∈ mapAssign m key name) : e = (key, name) ∨ e ∈ m := by
  induction m with
  | nil =>
    simp only [mapAssign, List.mem_singleton] at h
    exact Or.inl h
  | cons x rest ih =>
    obtain ⟨k, v⟩ := x
    simp only [mapAssign] at h
    split at h
    · rcases List.mem_cons.mp h with h1 | h1
      · exact Or.inl h1
      · exact Or.inr h1
    · split at h
      · rcases List.mem_cons.mp h with h1 | h1
        · exact Or.inl h1
        · exact Or.inr (List.mem_cons_of_mem _ h1)
      · rcases List.mem_cons.mp h with h1 | h1
        · exact Or.inr (by rw [h1]; exact List.mem_cons_self _ _)
        · rcases ih h1 with h2 | h2
          · exact Or.inl h2
          · exact Or.inr (List.mem_cons_of_mem _ h2)

theorem mapAssign_mem_self (m : List (Nat × String)) (key : Nat) (name : String) :
    (key, name) ∈ mapAssign m key name := by
  induction m with
  | nil => simp [mapAssign]
  | cons x rest ih =>
    obtain ⟨k, v⟩ := x
    simp only [mapAssign]
    split
    · exact List.mem_cons_self _ _
    · split
      · exact List.mem_cons_self _ _
      · exact List.mem_cons_of_mem _ ih

theorem mapAssign_mem_of_ne (m : List (Nat × String)) (key : Nat) (name : String)
    (e : Nat × String) (h : e ∈ m) (hne : e.1 ≠ key) : e ∈ mapAssign m key name := by
  induction m with
  | nil => cases h
  | cons x rest ih =>
    obtain ⟨k, v⟩ := x
    simp only [mapAssign]
    split
    · exact List.mem_cons_of_mem _ h
    · split
      · rename_i hk
        rcases List.mem_cons.mp h with h1 | h1
        · exfalso
          apply hne
          rw [h1, hk]
        · exact List.mem_cons_of_mem _ h1
      · rcases List.mem_cons.mp h with h1 | h1
        · rw [h1]
          exact List.mem_cons_self _ _
        · exact List.mem_cons_of_mem _ (ih h1)

theorem foldl_mapAssign_subset (l m : List (Nat × String)) (e : Nat × String)
    (h : e ∈ l.foldl (fun acc entry => mapAssign acc entry.1 entry.2) m) :
    e ∈ m ∨ e ∈ l := by
  induction l generalizing m with
  | nil => exact Or.inl h
  | cons x rest ih =>
    simp only [List.foldl_cons] at h
    rcases ih _ h with h1 | h1
    · rcases mem_mapAssign m x.1 x.2 e h1 with h2 | h2
      · exact Or.inr (by rw [h2]; exact List.mem_cons_self _ _)
      · exact Or.inl h2
    · exact Or.inr (List.mem_cons_of_mem _ h1)

theorem foldl_mapAssign_keeps (l m : List (Nat × String)) (e : Nat × String)
    (h : e ∈ m) (hne : ∀ x ∈ l, e.1 ≠ x.1) :
    e ∈ l.foldl (fun acc entry => mapAssign acc entry.1 entry.2) m := by
  induction l generalizing m with
  | nil => exact h
  | cons x rest ih =>
    simp only [List.foldl_cons]
    apply ih
    · exact mapAssign_mem_of_ne m x.1 x.2 e h (hne x (List.mem_cons_self _ _))
    · exact fun y hy => hne y (List.mem_cons_of_mem _ hy)

theorem foldl_mapAssign_mem (l m : List (Nat × String)) (e : Nat × String)
    (hnodup : (l.map Prod.fst).Nodup) (h : e ∈ l) :
    e ∈ l.foldl (fun acc entry => mapAssign acc entry.1 entry.2) m := by
  induction l generalizing m with
  | nil => cases h
  | cons x rest ih =>
    simp only [List.map_cons, List.nodup_cons] at hnodup
    simp only [List.foldl_cons]
    rcases List.mem_cons.mp h with h1 | h1
    · apply foldl_mapAssign_keeps
      · rw [h1]
        exact mapAssign_mem_self m x.1 x.2
      · intro y hy hxy
        apply hnodup.1
        rw [h1] at hxy
        rw [hxy]
        exact List.mem_map_of_mem _ hy
    · exact ih _ hnodup.2 h1

theorem haveFlag_single_bit (flags i : Nat) :
    haveFlag flags (2 ^ i) = containsFlag flags (2 ^ i) := by
  have hpos : 0 < 2 ^ i := Nat.two_pow_pos i
  unfold haveFlag containsFlag
  rw [Nat.and_two_pow]
  cases flags.testBit i
  · have hne : ¬ (0 = 2 ^ i) := by omega
    simp [hne]
  · have hne : ¬ (2 ^ i = 0) := by omega
    simp [hne]

theorem flagNames_names_nodup (F : FlagValues) :
    ((flagNames F).map Prod.snd).Nodup := by
  simp only [flagNames, List.map_cons, List.map_nil]
  decide

theorem flagsMap_subset (F : FlagValues) (e : Nat × String) (h : e ∈ flagsMap F) :
    e ∈ flagNames F := by
  rcases foldl_mapAssign_subset (flagNames F) [] e h with h1 | h1
  · cases h1
  · exact h1

theorem separateBits_single : SingleBits separateBits := by
  refine ⟨by decide, ?_⟩
  intro v hv
  simp only [flagNames, separateBits, List.map_cons, List.map_nil, List.mem_cons,
    List.mem_singleton, List.not_mem_nil, or_false] at hv
  rcases hv with h | h | h | h | h | h | h | h
  · exact ⟨0, h⟩
  · exact ⟨1, h⟩
  · exact ⟨2, h⟩
  · exact ⟨3, h⟩
  · exact ⟨4, h⟩
  · exact ⟨5, h⟩
  · exact ⟨6, h⟩
  · exact ⟨7, h⟩

/-! ## I/O mode flags: the claims -/

/-- C21: `verifyFlags` called with `correctFlags == false` never alters the
flags: for every assignment of the flag values and every flags word, the
value of `flags` after the call is its value before the call, whatever status
is returned. -/
theorem C21_verifyFlags_report_only (F : FlagValues) (flags : Nat) :
    (verifyFlags F flags false).2 = flags
      ∧ (verifyFlags separateBits (separateBits.ReadOnly ||| separateBits.WriteOnly)
          false) = (false, separateBits.ReadOnly ||| separateBits.WriteOnly)
      ∧ (verifyFlags separateBits (separateBits.ReadOnly ||| separateBits.WriteOnly)
          true) = (false, separateBits.ReadOnly) :=
  ⟨verifyFlags_keeps_flags F flags, by decide, by decide⟩

/-- C22, the code at the failing input: with the flags on separate bits, the
state `ReadOnly|WriteOnly` and `removeFlag (Create)`, the cleared settings are
rejected by `verifyFlags`, and the flags after `removeFlag` are not the flags
before the call: `ReadOnly|WriteOnly|Create` when `correctFlags` defaults to
`false`, `ReadOnly|Create` when it defaults to `true`.  In general, with the
default `false`, a rejected removal ends with the flag set, whether it was set
before or not. -/
theorem C22_removeFlag_sets_the_flag :
    (∀ defaultCorrect : Bool,
        (verifyFlags separateBits
          ((separateBits.ReadOnly ||| separateBits.WriteOnly) &&& bitNot separateBits.Create)
          defaultCorrect).1 = false)
      ∧ removeFlag separateBits false
          (separateBits.ReadOnly ||| separateBits.WriteOnly) separateBits.Create
        = (false, separateBits.ReadOnly ||| separateBits.WriteOnly ||| separateBits.Create)
      ∧ removeFlag separateBits true
          (separateBits.ReadOnly ||| separateBits.WriteOnly) separateBits.Create
        = (true, separateBits.ReadOnly ||| separateBits.Create)
      ∧ (removeFlag separateBits false
          (separateBits.ReadOnly ||| separateBits.WriteOnly) separateBits.Create).2
        ≠ (separateBits.ReadOnly ||| separateBits.WriteOnly)
      ∧ (removeFlag separateBits true
          (separateBits.ReadOnly ||| separateBits.WriteOnly) separateBits.Create).2
        ≠ (separateBits.ReadOnly ||| separateBits.WriteOnly)
      ∧ (∀ (F : FlagValues) (itsFlags flag : Nat),
          (verifyFlags F (itsFlags &&& bitNot flag) false).1 = false →
          (removeFlag F false itsFlags flag).2 = (itsFlags &&& bitNot flag) ||| flag) := by
  refine ⟨by decide, by decide, by decide, by decide, by decide, ?_⟩
  intro F itsFlags flag hrej
  simp only [removeFlag, hrej, if_true, addFlag, verifyFlags_keeps_flags]

/-- C23: for flag values that are single bits, each flag its own, all eight
flags are in `flagsMap ()`, and for every flag state and every flag `f` of
`flagsMap ()`: `haveFlag (f)` is true exactly when `f` is part of the settings,
`(flags & f) == f`, and exactly when the name of `f` appears in
`flagDescriptions ()`. -/
theorem C23_haveFlag_agrees_with_descriptions (F : FlagValues) (itsFlags : Nat)
    (hF : SingleBits F) :
    (∀ entry ∈ flagNames F, entry ∈ flagsMap F)
      ∧ (∀ entry ∈ flagsMap F,
          haveFlag itsFlags entry.1 = containsFlag itsFlags entry.1
            ∧ (haveFlag itsFlags entry.1 = true
                ↔ entry.2 ∈ flagDescriptions F itsFlags)) := by
  obtain ⟨hnodup, hbits⟩ := hF
  refine ⟨fun entry he => foldl_mapAssign_mem (flagNames F) [] entry hnodup he, ?_⟩
  intro entry he
  have hin : entry ∈ flagNames F := flagsMap_subset F entry he
  obtain ⟨i, hi⟩ := hbits entry.1 (List.mem_map_of_mem _ hin)
  have hsame : haveFlag itsFlags entry.1 = containsFlag itsFlags entry.1 := by
    rw [hi]
    exact haveFlag_single_bit itsFlags i
  refine ⟨hsame, ?_⟩
  rw [hsame, flagDescriptions_eq]
  simp only [List.mem_map, List.mem_filter]
  constructor
  · intro hc
    exact ⟨entry, ⟨he, hc⟩, rfl⟩
  · rintro ⟨other, ⟨ho, hc⟩, hname⟩
    have hoin : other ∈ flagNames F := flagsMap_subset F other ho
    have heq : other = entry :=
      List.inj_on_of_nodup_map (flagNames_names_nodup F) hoin hin hname
    rw [← heq]
    exact hc

/-- Witness of C23: the flags on separate bits and the state `Open|ReadOnly`,
for the flag `ReadOnly`. -/
theorem C23_haveFlag_agrees_with_descriptions_witness :
    haveFlag 36 32 = containsFlag 36 32
      ∧ (haveFlag 36 32 = true ↔ "ReadOnly" ∈ flagDescriptions separateBits 36) :=
  (C23_haveFlag_agrees_with_descriptions separateBits 36 separateBits_single).2
    (32, "ReadOnly") (by decide)

/-- C27, the code at the failing input: the static overload
`flagDescriptions (IO_Mode::Flags const &)` calls itself, so for every flag and
every depth of calls it has not returned, while `flagDescriptions (int)` of
the same value returns a list, `Open` for the flag `Open` on separate bits. -/
theorem C27_flagDescriptions_of_flag_never_returns (F : FlagValues) (flag fuel : Nat) :
    flagDescriptionsOfFlag F fuel flag = none
      ∧ flagDescriptionsOfFlag F fuel flag ≠ some (flagDescriptions F flag)
      ∧ flagDescriptions separateBits separateBits.Open = ["Open"] := by
  have hnone : flagDescriptionsOfFlag F fuel flag = none := by
    induction fuel with
    | zero => rfl
    | succ k ih => simpa [flagDescriptionsOfFlag] using ih
  refine ⟨hnone, ?_, by decide⟩
  rw [hnone]
  exact fun h => by cases h

/-! ## Facts about the set of attribute names -/

theorem char_eq_of_toNat_eq (a b : Char) (h : a.toNat = b.toNat) : a = b := by
  rw [← Char.ofNat_toNat a, ← Char.ofNat_toNat b, h]

theorem lessChars_irrefl (a : List Char) : lessChars a a = false := by
  induction a with
  | nil => rfl
  | cons x rest ih => simp [lessChars, ih]

theorem lessChars_trans (a b c : List Char) (hab : lessChars a b = true)
    (hbc : lessChars b c = true) : lessChars a c = true := by
  induction a generalizing b c with
  | nil =>
    cases c with
    | nil => cases b <;> simp [lessChars] at hbc
    | cons z cs => rfl
  | cons x as ih =>
    cases b with
    | nil => simp [lessChars] at hab
    | cons y bs =>
      cases c with
      | nil => simp [lessChars] at hbc
      | cons z cs =>
        simp only [lessChars] at hab hbc ⊢
        by_cases h1 : x.toNat < y.toNat
        · by_cases h2 : y.toNat < z.toNat
          · have : x.toNat < z.toNat := by omega
            simp [this]
          · by_cases h3 : z.toNat < y.toNat
            · simp [h2, h3] at hbc
            · have : x.toNat < z.toNat := by omega
              simp [this]
        · by_cases h1b : y.toNat < x.toNat
          · simp [h1, h1b] at hab
          · simp only [h1, h1b, if_false] at hab
            by_cases h2 : y.toNat < z.toNat
            · have : x.toNat < z.toNat := by omega
              simp [this]
            · by_cases h3 : z.toNat < y.toNat
              · simp [h2, h3] at hbc
              · simp only [h2, h3, if_false] at hbc
                have e1 : ¬ x.toNat < z.toNat := by omega
                have e2 : ¬ z.toNat < x.toNat := by omega
                simp only [e1, e2, if_false]
                exact ih bs cs hab hbc

theorem lessChars_total (a b : List Char) (hab : lessChars a b = false) (hne : a ≠ b) :
    lessChars b a = true := by
  induction a generalizing b with
  | nil =>
    cases b with
    | nil => exact absurd rfl hne
    | cons y bs => simp [lessChars] at hab
  | cons x as ih =>
    cases b with
    | nil => rfl
    | cons y bs =>
      simp only [lessChars] at hab ⊢
      by_cases h1 : x.toNat < y.toNat
      · simp [h1] at hab
      · by_cases h2 : y.toNat < x.toNat
        · simp [h2]
        · simp only [h1, h2, if_false] at hab ⊢
          have hxy : x = y := char_eq_of_toNat_eq x y (by omega)
          apply ih bs hab
          intro h
          apply hne
          rw [hxy, h]

theorem less_irrefl (a : String) : less a a = false := lessChars_irrefl a.data

theorem less_trans (a b c : String) (hab : less a b = true) (hbc : less b c = true) :
    less a c = true := lessChars_trans a.data b.data c.data hab hbc

theorem less_total (a b : String) (hab : less a b = false) (hne : a ≠ b) :
    less b a = true := by
  apply lessChars_total a.data b.data hab
  intro h
  apply hne
  cases a
  cases b
  simp only at h
  rw [h]

theorem setOrdered_nodup (s : List String) (h : SetOrdered s) : s.Nodup := by
  unfold SetOrdered at h
  exact List.Pairwise.imp (fun {a b} hab heq => by
    rw [heq, less_irrefl] at hab
    cases hab) h

theorem mem_setInsert (name : String) (s : List String) (x : String) :
    x ∈ setInsert name s ↔ x = name ∨ x ∈ s := by
  induction s with
  | nil => simp [setInsert]
  | cons y rest ih =>
    simp only [setInsert]
    split
    · simp
    · split
      · rename_i hxy
        simp only [List.mem_cons]
        constructor
        · exact fun h => Or.inr h
        · rintro (h | h)
          · exact Or.inl (by rw [h, hxy])
          · exact h
      · simp only [List.mem_cons, ih]
        constructor
        · rintro (h | h | h)
          · exact Or.inr (Or.inl h)
          · exact Or.inl h
          · exact Or.inr (Or.inr h)
        · rintro (h | h | h)
          · exact Or.inr (Or.inl h)
          · exact Or.inl h
          · exact Or.inr (Or.inr h)

theorem setInsert_length (name : String) (s : List String) (h : name ∉ s) :
    (setInsert name s).length = s.length + 1 := by
  induction s with
  | nil => rfl
  | cons y rest ih =>
    simp only [List.mem_cons, not_or] at h
    simp only [setInsert]
    split
    · rfl
    · rw [if_neg h.1]
      simp [ih h.2]

theorem setInsert_ordered (name : String) (s : List String) (h : SetOrdered s) :
    SetOrdered (setInsert name s) := by
  unfold SetOrdered at h ⊢
  induction s with
  | nil => simp [setInsert]
  | cons y rest ih =>
    rw [List.pairwise_cons] at h
    simp only [setInsert]
    split
    · rename_i hlt
      rw [List.pairwise_cons]
      refine ⟨?_, List.pairwise_cons.mpr h⟩
      intro z hz
      rcases List.mem_cons.mp hz with hz1 | hz1
      · rw [hz1]
        exact hlt
      · exact less_trans name y z hlt (h.1 z hz1)
    · rename_i hnlt
      split
      · exact List.pairwise_cons.mpr h
      · rename_i hne
        rw [List.pairwise_cons]
        refine ⟨?_, ih h.2⟩
        intro z hz
        rcases (mem_setInsert name rest z).mp hz with hz1 | hz1
        · rw [hz1]
          apply less_total name y _ hne
          cases hl : less name y
          · rfl
          · exact absurd hl hnlt
        · exact h.1 z hz1

theorem setErase_eq (name : String) (s : List String) :
    setErase name s = (if name ∈ s then 1 else 0, s.erase name) := by
  induction s with
  | nil => rfl
  | cons y rest ih =>
    simp only [setErase, ih]
    by_cases hy : y = name
    · simp [hy]
    · have hy1 : ¬ name = y := fun h => hy h.symm
      simp [hy, hy1, List.erase_cons]

theorem setErase_setInsert (name : String) (s : List String) (h : name ∉ s) :
    (setErase name (setInsert name s)).2 = s := by
  induction s with
  | nil => simp [setInsert, setErase]
  | cons y rest ih =>
    simp only [List.mem_cons, not_or] at h
    simp only [setInsert]
    split
    · simp [setErase]
    · rw [if_neg h.1]
      have hy : ¬ y = name := fun e => h.1 e.symm
      simp only [setErase, if_neg hy, ih h.2]

theorem attributeLoop_eq (steps : Nat) (it : List String) :
    attributeLoop steps it = it[steps]? := by
  induction steps generalizing it with
  | zero => simp [attributeLoop, List.head?_eq_getElem?]
  | succ k ih =>
    cases it with
    | nil => simp [attributeLoop]
    | cons x rest => simp [attributeLoop, ih]

/-! ## Attribute names: the claims -/

/-- C24: `addAttribute (name)` returns `false` and leaves the attribute set
unchanged if the name is in the set; otherwise it returns `true` and the set
afterwards holds the name and the elements of the old set, nothing else, one
element more, still in order. -/
theorem C24_addAttribute (attributes_p : List String) (name : String) :
    (name ∈ attributes_p → addAttribute attributes_p name = (false, attributes_p))
      ∧ (name ∉ attributes_p →
          (addAttribute attributes_p name).1 = true
            ∧ (∀ x, x ∈ (addAttribute attributes_p name).2 ↔ x = name ∨ x ∈ attributes_p)
            ∧ (addAttribute attributes_p name).2.length = attributes_p.length + 1)
      ∧ (SetOrdered attributes_p → SetOrdered (addAttribute attributes_p name).2)
      ∧ addAttribute ["FILENAME", "GROUPTYPE"] "FILETYPE"
          = (true, ["FILENAME", "FILETYPE", "GROUPTYPE"])
      ∧ addAttribute ["FILENAME", "GROUPTYPE"] "GROUPTYPE"
          = (false, ["FILENAME", "GROUPTYPE"]) := by
  refine ⟨?_, ?_, ?_, by decide, by decide⟩
  · intro hin
    simp [addAttribute, setCount, hin]
  · intro hnot
    have hadd : addAttribute attributes_p name = (true, setInsert name attributes_p) := by
      simp [addAttribute, setCount, hnot]
    rw [hadd]
    exact ⟨rfl, fun x => mem_setInsert name attributes_p x,
      setInsert_length name attributes_p hnot⟩
  · intro hset
    by_cases hin : name ∈ attributes_p
    · have : addAttribute attributes_p name = (false, attributes_p) := by
        simp [addAttribute, setCount, hin]
      rw [this]
      exact hset
    · have : addAttribute attributes_p name = (true, setInsert name attributes_p) := by
        simp [addAttribute, setCount, hin]
      rw [this]
      exact setInsert_ordered name attributes_p hset

/-- C25: on an attribute set, `removeAttribute (name)` returns `true` if and
only if the name was in the set; afterwards the name is not in the set, every
other element is still present and nothing is added; and `removeAttribute
(name)` directly after a successful `addAttribute (name)` returns `true` and
restores the original set. -/
theorem C25_removeAttribute (attributes_p : List String) (name : String)
    (hset : SetOrdered attributes_p) :
    ((removeAttribute attributes_p name).1 = true ↔ name ∈ attributes_p)
      ∧ name ∉ (removeAttribute attributes_p name).2
      ∧ (∀ x, x ≠ name →
          (x ∈ (removeAttribute attributes_p name).2 ↔ x ∈ attributes_p))
      ∧ SetOrdered (removeAttribute attributes_p name).2
      ∧ (name ∉ attributes_p →
          (addAttribute attributes_p name).1 = true
            ∧ removeAttribute (addAttribute attributes_p name).2 name
                = (true, attributes_p)) := by
  have hnodup : attributes_p.Nodup := setOrdered_nodup attributes_p hset
  have hrem : removeAttribute attributes_p name
      = ((if name ∈ attributes_p then 1 else 0) != 0, attributes_p.erase name) := by
    simp only [removeAttribute, setErase_eq]
  refine ⟨?_, ?_, ?_, ?_, ?_⟩
  · rw [hrem]
    by_cases hin : name ∈ attributes_p <;> simp [hin]
  · rw [hrem]
    exact List.Nodup.not_mem_erase hnodup
  · intro x hx
    rw [hrem]
    simp only []
    rw [List.Nodup.mem_erase_iff hnodup]
    exact ⟨fun h => h.2, fun h => ⟨hx, h⟩⟩
  · rw [hrem]
    exact List.Pairwise.sublist (List.erase_sublist name attributes_p) hset
  · intro hnot
    have hadd : addAttribute attributes_p name = (true, setInsert name attributes_p) := by
      simp [addAttribute, setCount, hnot]
    rw [hadd]
    refine ⟨rfl, ?_⟩
    have hmem : name ∈ setInsert name attributes_p :=
      (mem_setInsert name attributes_p name).mpr (Or.inl rfl)
    have h2 := setErase_setInsert name attributes_p hnot
    have h1 : (setErase name (setInsert name attributes_p)).1 = 1 := by
      rw [setErase_eq]
      simp [hmem]
    simp only [removeAttribute, h1, h2]
    rfl

/-- Witness of C25: removing "FILETYPE" from the set of "FILENAME", "FILETYPE"
and "GROUPTYPE". -/
theorem C25_removeAttribute_witness :
    ((removeAttribute ["FILENAME", "FILETYPE", "GROUPTYPE"] "FILETYPE").1 = true
        ↔ "FILETYPE" ∈ ["FILENAME", "FILETYPE", "GROUPTYPE"])
      ∧ "FILETYPE" ∉ (removeAttribute ["FILENAME", "FILETYPE", "GROUPTYPE"] "FILETYPE").2 :=
  ⟨(C25_removeAttribute ["FILENAME", "FILETYPE", "GROUPTYPE"] "FILETYPE" (by decide)).1,
    (C25_removeAttribute ["FILENAME", "FILETYPE", "GROUPTYPE"] "FILETYPE" (by decide)).2.1⟩

/-- C26: `attribute (index)` returns the attribute name at position `index`
of the list of the set, which is in increasing order and free of duplicates,
for every index below the number of attributes; for an index that is not
below the number of attributes, so for every index on the empty set, the
iterator is at or past the end and there is no element to return. -/
theorem C26_attribute_position (attributes_p : List String) (index : Nat) :
    attributeAt attributes_p index = attributes_p[index]?
      ∧ (index < attributes_p.length →
          ∃ name, attributeAt attributes_p index = some name
            ∧ attributes_p[index]? = some name ∧ name ∈ attributes_p)
      ∧ (attributes_p.length ≤ index → attributeAt attributes_p index = none)
      ∧ attributeAt [] index = none
      ∧ (SetOrdered attributes_p → ∀ i j a b, i < j →
          attributeAt attributes_p i = some a → attributeAt attributes_p j = some b →
          less a b = true)
      ∧ attributeAt ["FILENAME", "GROUPTYPE"] 1 = some "GROUPTYPE"
      ∧ attributeAt ["FILENAME", "GROUPTYPE"] 2 = none := by
  have heq : ∀ (s : List String) (k : Nat), attributeAt s k = s[k]? :=
    fun s k => attributeLoop_eq k s
  refine ⟨heq attributes_p index, ?_, ?_, ?_, ?_, by decide, by decide⟩
  · intro hlt
    refine ⟨attributes_p[index], ?_, ?_, List.getElem_mem hlt⟩
    · rw [heq, List.getElem?_eq_getElem hlt]
    · exact List.getElem?_eq_getElem hlt
  · intro hge
    rw [heq]
    exact List.getElem?_eq_none hge
  · rw [heq]
    rfl
  · intro hset i j a b hij ha hb
    rw [heq] at ha hb
    obtain ⟨hi, hai⟩ := List.getElem?_eq_some_iff.mp ha
    obtain ⟨hj, hbj⟩ := List.getElem?_eq_some_iff.mp hb
    have := (List.pairwise_iff_getElem.mp hset) i j hi hj hij
    rw [hai, hbj] at this
    exact this

end DAL
